import Mathlib

/-!
Verification of the finance-dashboard ingestion/normalization/reconciliation
pipeline.  The Python sources (src/utils/parser.py, src/database/db.py,
src/app.py) are shallowly embedded below: strings are `List Char`, monetary
amounts are exact rationals `ℚ` (the Python code uses binary floats; all
claims here concern the parsing and bookkeeping logic, which is modelled in
exact arithmetic), fallible operations return `Option`.
-/

set_option maxHeartbeats 1000000

/-- Shorthand turning a string literal into the `List Char` representation
used throughout the development. -/
def cl (s : String) : List Char := s.toList

/-- Upper-case a description, as Python's `str.upper` does on the ASCII
descriptions handled by the pipeline. -/
def upperL (l : List Char) : List Char := l.map Char.toUpper

/-- Numeric value of a digit character. -/
def digVal (c : Char) : ℕ := c.toNat - 48

/-- Value of a digit string read in base 10, as Python's `int`/`float` do. -/
def natVal (l : List Char) : ℕ := l.foldl (fun a c => 10 * a + digVal c) 0

/-- Whitespace test used by Python's `str.strip` and the regex class. -/
def isWs (c : Char) : Bool := c.isWhitespace

/-- Remove leading and trailing whitespace (Python `str.strip`). -/
def trimL (l : List Char) : List Char :=
  ((l.dropWhile isWs).reverse.dropWhile isWs).reverse

/-- Does `f` hold of some suffix of the list?  Used to model `re.search`,
which looks for a match starting at every position. -/
def anySuffix (f : List Char → Bool) : List Char → Bool
  | [] => f []
  | c :: rest => f (c :: rest) || anySuffix f rest

/-- Substring containment test: does `p` occur contiguously inside `l`?
Models Python's `in` operator on strings and SQL `LIKE '%p%'`. -/
def containsSub (p l : List Char) : Bool :=
  anySuffix (fun t => p.isPrefixOf t) l

/-- Match one-or-more whitespace characters followed by the keyword `k`
(the regex fragment matching a whitespace run before a literal). -/
def wsThenKw (k : List Char) : List Char → Bool
  | [] => false
  | c :: rest => isWs c && (k.isPrefixOf rest || wsThenKw k rest)

/-- Match keyword `k1`, then one-or-more whitespace, then keyword `k2`,
anchored at the start of the list. -/
def prefixKwWsKw (k1 k2 l : List Char) : Bool :=
  k1.isPrefixOf l && wsThenKw k2 (l.drop k1.length)

/-- Search anywhere in the list for `k1`, whitespace run, `k2` — models
`re.search` on patterns of the shape `K1\s+K2`. -/
def reSearchKwWsKw (k1 k2 l : List Char) : Bool :=
  anySuffix (fun t => prefixKwWsKw k1 k2 t) l

/-! ## Transaction categorizer (src/database/db.py, categorize_transaction) -/

/-- The ordered category table of `categorize_transaction`, transcribed
verbatim from src/database/db.py (Python dicts preserve insertion order). -/
def catRules : List (List Char × List (List Char)) :=
  [ ((cl "Food & Dining"),
      [cl "SWIGGY", cl "ZOMATO", cl "DOMINOS", cl "PIZZA", cl "RESTAURANT",
       cl "CAFE", cl "COFFEE", cl "MCDONALD", cl "KFC", cl "BURGER",
       cl "FOOD", cl "DINING", cl "EATERY", cl "CANTEEN", cl "MESS",
       cl "TIFFIN", cl "SNACKS", cl "BAKERY", cl "SWEET", cl "JUICE"]),
    ((cl "Transportation"),
      [cl "UBER", cl "OLA", cl "METRO", cl "PETROL", cl "DIESEL", cl "FUEL",
       cl "BUS", cl "TRAIN", cl "TAXI", cl "AUTO", cl "TRANSPORT",
       cl "PARKING", cl "TOLL", cl "FASTAG", cl "RAILWAY", cl "IRCTC",
       cl "FLIGHT", cl "AIRLINE", cl "AIRPORT"]),
    ((cl "Shopping"),
      [cl "AMAZON", cl "FLIPKART", cl "MYNTRA", cl "AJIO", cl "MALL",
       cl "STORE", cl "SHOP", cl "PURCHASE", cl "RETAIL", cl "CLOTHING",
       cl "ELECTRONICS", cl "MOBILE", cl "LAPTOP", cl "GROCERY",
       cl "SUPERMARKET", cl "HYPERMARKET", cl "RELIANCE"]),
    ((cl "Utilities & Bills"),
      [cl "ELECTRICITY", cl "WATER", cl "GAS", cl "INTERNET", cl "BROADBAND",
       cl "WIFI", cl "MOBILE RECHARGE", cl "DTH", cl "CABLE", cl "PHONE",
       cl "TELECOM", cl "AIRTEL", cl "JIO", cl "VI", cl "BSNL",
       cl "BILL PAYMENT", cl "UTILITY"]),
    ((cl "Healthcare"),
      [cl "HOSPITAL", cl "PHARMACY", cl "DOCTOR", cl "MEDICAL", cl "CLINIC",
       cl "MEDICINE", cl "HEALTH", cl "INSURANCE", cl "APOLLO", cl "FORTIS",
       cl "MAX", cl "AIIMS"]),
    ((cl "Entertainment"),
      [cl "MOVIE", cl "CINEMA", cl "NETFLIX", cl "AMAZON PRIME", cl "SPOTIFY",
       cl "HOTSTAR", cl "YOUTUBE", cl "GAME", cl "ENTERTAINMENT",
       cl "THEATRE", cl "CONCERT", cl "EVENT"]),
    ((cl "Education"),
      [cl "SCHOOL", cl "COLLEGE", cl "UNIVERSITY", cl "COURSE", cl "TRAINING",
       cl "EDUCATION", cl "FEES", cl "TUITION", cl "BOOK", cl "LIBRARY",
       cl "COACHING", cl "INSTITUTE"]),
    ((cl "Banking & Finance"),
      [cl "BANK CHARGES", cl "ATM", cl "INTEREST", cl "LOAN", cl "EMI",
       cl "CREDIT CARD", cl "FINANCE", cl "INVESTMENT", cl "MUTUAL FUND",
       cl "SIP", cl "INSURANCE", cl "PREMIUM", cl "POLICY"]),
    ((cl "Cash Withdrawal"),
      [cl "ATM WDL", cl "CASH WITHDRAWAL", cl "ATM CASH", cl "WITHDRAWAL",
       cl "CASH"]),
    ((cl "Transfers"),
      [cl "TRANSFER", cl "UPI", cl "IMPS", cl "NEFT", cl "RTGS",
       cl "FUND TRANSFER", cl "MONEY TRANSFER", cl "PAYTM", cl "GPAY",
       cl "PHONEPE", cl "BHIM"]),
    ((cl "Salary & Income"),
      [cl "SALARY", cl "INCOME", cl "CREDIT INTEREST", cl "DIVIDEND",
       cl "BONUS", cl "REFUND", cl "CASHBACK", cl "REWARD"]) ]

/-- First rule of the ordered table whose keyword set has a substring match
in the upper-cased description (the `for category, keywords in
categories.items()` loop). -/
def firstRuleMatch (u : List Char) : List (List Char × List (List Char)) → Option (List Char)
  | [] => none
  | (lab, kws) :: rest =>
      if kws.any (fun k => containsSub k u) then some lab else firstRuleMatch u rest

/-- Does any ordered keyword rule match the upper-cased description? -/
def ruleHit (u : List Char) : Bool :=
  catRules.any (fun r => r.2.any (fun k => containsSub k u))

/-- Does any of the three fallback regex patterns of
`categorize_transaction` match the upper-cased description? -/
def regexHit (u : List Char) : Bool :=
  (reSearchKwWsKw (cl "TO") (cl "TRANSFER") u
    || reSearchKwWsKw (cl "BY") (cl "TRANSFER") u)
  || (containsSub (cl "CHARGES") u || containsSub (cl "FEE") u)
  || (reSearchKwWsKw (cl "CREDIT") (cl "CARD") u
    || reSearchKwWsKw (cl "CC") (cl "PAYMENT") u)

/-- Embedding of `categorize_transaction` (src/database/db.py lines 7-79):
empty description short-circuits to "Other"; otherwise the upper-cased
description is tested against the ordered keyword table, then the three
regex fallbacks, and finally defaults to "Other". -/
def categorize_transaction (d : List Char) : List Char :=
  if d.isEmpty then cl "Other"
  else
    let u := upperL d
    match firstRuleMatch u catRules with
    | some lab => lab
    | none =>
        if reSearchKwWsKw (cl "TO") (cl "TRANSFER") u
            || reSearchKwWsKw (cl "BY") (cl "TRANSFER") u then cl "Transfers"
        else if containsSub (cl "CHARGES") u || containsSub (cl "FEE") u then
          cl "Banking & Finance"
        else if reSearchKwWsKw (cl "CREDIT") (cl "CARD") u
            || reSearchKwWsKw (cl "CC") (cl "PAYMENT") u then
          cl "Banking & Finance"
        else cl "Other"

/-- The labels that can ever be returned: the table labels together with the
regex-fallback labels and "Other". -/
def categoryLabels : List (List Char) :=
  catRules.map Prod.fst ++ [cl "Transfers", cl "Banking & Finance", cl "Other"]

/-! ## Sweep reconciliation (src/utils/parser.py) -/

/-- A normalized statement row as it exists just before sweep processing in
`parse_csv`: parsed date text, cleaned description, the `is_sweep` flag
column, and numeric debit/credit/balance. -/
structure SRow where
  date : List Char
  description : List Char
  is_sweep : Bool
  debit : ℚ
  credit : ℚ
  balance : ℚ
deriving DecidableEq, Repr

/-- Embedding of `is_sweep_transaction` (src/utils/parser.py lines 103-116):
the upper-cased description is tested against the four sweep keywords. -/
def is_sweep_transaction (d : List Char) : Bool :=
  let u := upperL d
  containsSub (cl "DEBIT SWEEP") u || containsSub (cl "TRANSFER CREDIT-") u
    || containsSub (cl "SWEEP TO") u || containsSub (cl "SWEEP FROM") u

/-- Loop body of `process_sweep_transactions` (src/utils/parser.py lines
126-152): state is the running sweep (MOD) balance `sb` and the pending
`balance_adjustment` `adj`.  Rows flagged `is_sweep` are dropped (marked for
removal); among them only descriptions containing "DEBIT SWEEP" or
"TRANSFER CREDIT-SWEEP" update the state.  Unflagged rows receive the
pending adjustment (when non-zero) and reset it.  Returns the surviving
rows together with the final sweep balance and pending adjustment. -/
def processSweepAux (sb adj : ℚ) : List SRow → List SRow × ℚ × ℚ
  | [] => ([], sb, adj)
  | r :: rest =>
      if r.is_sweep then
        let amt := if r.debit > 0 then r.debit else r.credit
        if containsSub (cl "DEBIT SWEEP") (upperL r.description) then
          processSweepAux (sb + amt) (adj - amt) rest
        else if containsSub (cl "TRANSFER CREDIT-SWEEP") (upperL r.description) then
          processSweepAux (sb - amt) (adj + amt) rest
        else
          processSweepAux sb adj rest
      else
        let r2 := if adj ≠ 0 then {r with balance := r.balance + adj} else r
        let res := processSweepAux sb 0 rest
        (r2 :: res.1, res.2)

/-- Embedding of `process_sweep_transactions` (src/utils/parser.py lines
118-160).  The final filter `df_processed[df_processed.get('remove', False)
!= True]` works only when some row was marked for removal (which creates the
`remove` column); on a non-empty frame with no sweep-flagged row, `get`
returns the scalar `False` and the indexing raises, which the caller
`parse_csv` turns into an empty record list — modelled as `none`. -/
def process_sweep_transactions (rows : List SRow) (mod_balance : ℚ) :
    Option (List SRow) :=
  if rows.isEmpty then some rows
  else if rows.any (fun r => r.is_sweep) then
    some (processSweepAux mod_balance 0 rows).1
  else none

/-- Modelled from the spec (claim C3 wording): the claimed state machine in
which a row is treated as a sweep transfer exactly when its description
matches one of the two known phrasings ("DEBIT SWEEP" — money moving to the
sweep sub-account — or "TRANSFER CREDIT-SWEEP" — money moving back), with
the amount accumulated into the pending delta and the row removed; every
other row has the pending delta applied to its balance and the delta
reset. -/
def sweepSpecAux (sb adj : ℚ) : List SRow → List SRow × ℚ × ℚ
  | [] => ([], sb, adj)
  | r :: rest =>
      let amt := if r.debit > 0 then r.debit else r.credit
      if containsSub (cl "DEBIT SWEEP") (upperL r.description) then
        sweepSpecAux (sb + amt) (adj - amt) rest
      else if containsSub (cl "TRANSFER CREDIT-SWEEP") (upperL r.description) then
        sweepSpecAux (sb - amt) (adj + amt) rest
      else
        let res := sweepSpecAux sb 0 rest
        ({r with balance := r.balance + adj} :: res.1, res.2)

/-- Modelled from the spec (claim C3 wording): surviving rows of the
claimed state machine. -/
def sweepSpecMachine (rows : List SRow) (mb : ℚ) : List SRow :=
  (sweepSpecAux mb 0 rows).1

/-- Amended sweep state machine: removal is decided by
`is_sweep_transaction` on the description (four keywords), but only the two
phrasings "DEBIT SWEEP" / "TRANSFER CREDIT-SWEEP" update the sweep balance
and the pending delta; other flagged rows are removed with no state change;
unflagged rows receive the pending delta and reset it. -/
def sweepAmendedAux (sb adj : ℚ) : List SRow → List SRow × ℚ × ℚ
  | [] => ([], sb, adj)
  | r :: rest =>
      if is_sweep_transaction r.description then
        let amt := if r.debit > 0 then r.debit else r.credit
        if containsSub (cl "DEBIT SWEEP") (upperL r.description) then
          sweepAmendedAux (sb + amt) (adj - amt) rest
        else if containsSub (cl "TRANSFER CREDIT-SWEEP") (upperL r.description) then
          sweepAmendedAux (sb - amt) (adj + amt) rest
        else
          sweepAmendedAux sb adj rest
      else
        let res := sweepAmendedAux sb 0 rest
        ({r with balance := r.balance + adj} :: res.1, res.2)

/-- Check that a row sequence carries a consistent running balance column
starting from opening balance `b0` (each balance is the previous one plus
credit minus debit). -/
def balanceConsistent (b0 : ℚ) : List SRow → Bool
  | [] => true
  | r :: rest =>
      decide (r.balance = b0 + r.credit - r.debit) && balanceConsistent r.balance rest

/-- Modelled from the spec (claim C2 wording): the balance trail a statement
without any sweep product would show — recompute every surviving row's
balance from the opening balance using only credits and debits. -/
def recomputeBalances (b0 : ℚ) : List SRow → List SRow
  | [] => []
  | r :: rest =>
      let b1 := b0 + r.credit - r.debit
      {r with balance := b1} :: recomputeBalances b1 rest

/-- Rows that survive sweep removal, with their raw statement balances. -/
def survivorsRaw (rows : List SRow) : List SRow :=
  rows.filter (fun r => !r.is_sweep)

/-- Sum of the ledger balance deltas of the rows removed as sweep rows (for
a consistent statement each row's delta is credit minus debit). -/
def removedSweepDelta (rows : List SRow) : ℚ :=
  ((rows.filter (fun r => r.is_sweep)).map (fun r => r.credit - r.debit)).sum

/-- Total adjustment `process_sweep_transactions` applies to surviving rows:
the surviving balances after processing minus the raw surviving balances. -/
def appliedAdjTotal (rows : List SRow) (mb : ℚ) : ℚ :=
  (((processSweepAux mb 0 rows).1).map (fun r => r.balance)).sum
    - ((survivorsRaw rows).map (fun r => r.balance)).sum

/-- Failing input for C2 — a consistent SBI-style history with opening
balance 1000: a sweep row (debit 500, balance 500) followed by a real
purchase (debit 100, balance 400). -/
def c2rows : List SRow :=
  [⟨cl "01-04-2023", cl "DEBIT SWEEP", true, 500, 0, 500⟩,
   ⟨cl "02-04-2023", cl "POS PURCHASE", false, 100, 0, 400⟩]

/-- Counterexample row for C3: flagged by `is_sweep_transaction` (keyword
"SWEEP FROM") but matching neither of the two phrasings the loop body
handles. -/
def c3row : SRow :=
  ⟨cl "01-04-2023", cl "SWEEP FROM MOD", true, 100, 0, 900⟩

/-! ## Ledger store model (src/database/db.py, src/app.py) -/

/-- A parsed record as produced by `parse_csv`: the 7-tuple
`(date, owner, bank, description, debit, credit, balance)`. -/
structure PRecord where
  date : List Char
  owner : List Char
  bank : List Char
  description : List Char
  debit : ℚ
  credit : ℚ
  balance : ℚ
deriving DecidableEq, Repr

/-- A persisted row of the `transactions` table: auto-increment primary key
`id`, the seven record fields, and the (nullable) category column. -/
structure DBRow where
  id : ℕ
  date : List Char
  owner : List Char
  bank : List Char
  description : List Char
  debit : ℚ
  credit : ℚ
  balance : ℚ
  category : Option (List Char)
deriving DecidableEq, Repr

/-- Next auto-increment id for the transactions table. -/
def nextId (db : List DBRow) : ℕ :=
  (db.map (fun t => t.id)).foldr max 0 + 1

/-- Embedding of `insert_transactions` (src/database/db.py lines 121-141):
each 7-tuple is enhanced with `categorize_transaction` of its description
and appended to the table; ids are assigned by auto-increment. -/
def insert_transactions (db : List DBRow) (recs : List PRecord) : List DBRow :=
  db ++ recs.enum.map (fun p =>
    ⟨nextId db + p.1, p.2.date, p.2.owner, p.2.bank, p.2.description,
     p.2.debit, p.2.credit, p.2.balance,
     some (categorize_transaction p.2.description)⟩)

/-- Identity-key comparison used by `check_duplicate_transactions`: date,
owner, bank, description, debit and credit — balance is excluded. -/
def sameIdentityKey (t : DBRow) (r : PRecord) : Bool :=
  t.date == r.date && t.owner == r.owner && t.bank == r.bank
    && t.description == r.description && decide (t.debit = r.debit)
    && decide (t.credit = r.credit)

/-- Embedding of `check_duplicate_transactions` (src/database/db.py lines
438-460): the number of records of the batch whose identity key already
occurs in the table. -/
def check_duplicate_transactions (db : List DBRow) (recs : List PRecord) : ℕ :=
  recs.countP (fun r => db.any (fun t => sameIdentityKey t r))

/-- Embedding of `get_transaction_count` (src/database/db.py lines
427-435). -/
def get_transaction_count (db : List DBRow) : ℕ := db.length

/-- The per-file body of the load-data loop in src/app.py lines 70-81: when
the parsed batch is non-empty, duplicates are counted (and reported), and
then `insert_transactions` is called on the FULL batch.  Returns the new
table and the reported duplicate count. -/
def loadFile (db : List DBRow) (records : List PRecord) : List DBRow × ℕ :=
  if records.isEmpty then (db, 0)
  else (insert_transactions db records, check_duplicate_transactions db records)

/-- Failing input for C1: a record identical (on the identity key) to one
already persisted. -/
def c1rec : PRecord :=
  ⟨cl "01-04-2023", cl "Alice", cl "SBI", cl "TEST PAYMENT", 100, 0, 500⟩

/-- The one-row ledger obtained by ingesting `c1rec` once. -/
def c1db : List DBRow := insert_transactions [] [c1rec]

/-! ## Transfer detector, exact-match phase (src/database/db.py lines
200-224) -/

/-- A derived transfer record, with the column list of the exact-match
query. -/
structure TransferRecord where
  date : List Char
  from_owner : List Char
  from_bank : List Char
  to_owner : List Char
  to_bank : List Char
  amount : ℚ
  from_description : List Char
  to_description : List Char
  transfer_type : List Char
deriving DecidableEq, Repr

/-- Join predicate of the exact-match self-join: same date, `t1.debit =
t2.credit`, different owner or different bank, and `t1.debit > 0`. -/
def transferJoinPred (t1 t2 : DBRow) : Bool :=
  t1.date == t2.date && decide (t1.debit = t2.credit)
    && (t1.owner != t2.owner || t1.bank != t2.bank) && decide (t1.debit > 0)

/-- Output row of the exact-match query for a joined pair, including the
CASE expression computing the transfer type. -/
def mkTransferRecord (t1 t2 : DBRow) : TransferRecord :=
  ⟨t1.date, t1.owner, t1.bank, t2.owner, t2.bank, t1.debit,
   t1.description, t2.description,
   if t1.owner = t2.owner then cl "Inter-Bank (Same Person)"
   else cl "Inter-Person Transfer"⟩

/-- All ordered pairs of two lists (the unfiltered SQL self-join). -/
def pairsAll {α β : Type} : List α → List β → List (α × β)
  | [], _ => []
  | a :: as, l2 => l2.map (fun b => (a, b)) ++ pairsAll as l2

/-- The joined pairs of the exact-match phase. -/
def exactJoinPairs (db : List DBRow) : List (DBRow × DBRow) :=
  (pairsAll db db).filter (fun p => transferJoinPred p.1 p.2)

/-- Embedding of the exact-match phase of `get_inter_person_transfers`
(src/database/db.py lines 200-224); the `ORDER BY date DESC` clause only
permutes the result and is omitted. -/
def get_inter_person_transfers (db : List DBRow) : List TransferRecord :=
  (exactJoinPairs db).map (fun p => mkTransferRecord p.1 p.2)

/-! ## Bulk re-categorization (src/database/db.py lines 463-482) -/

/-- SQL predicate `category IS NULL OR category = ''`. -/
def catEmpty : Option (List Char) → Bool
  | none => true
  | some c => c.isEmpty

/-- One `UPDATE transactions SET category = ? WHERE id = ?` statement. -/
def sqlUpdateCategory (db : List DBRow) (tid : ℕ) (cat : List Char) : List DBRow :=
  db.map (fun t => if t.id = tid then {t with category := some cat} else t)

/-- Embedding of `update_categories_for_existing_transactions`
(src/database/db.py lines 463-482): select the (id, description) pairs of
rows with NULL or empty category, then update each selected id's category
to the categorizer's output for the selected description; returns the new
table and the updated count. -/
def update_categories_for_existing_transactions (db : List DBRow) :
    List DBRow × ℕ :=
  let sel := (db.filter (fun t => catEmpty t.category)).map
    (fun t => (t.id, t.description))
  (sel.foldl
    (fun acc p => sqlUpdateCategory acc p.1 (categorize_transaction p.2)) db,
   sel.length)

/-- Concrete ledger row for the C4 example: Alice debits 5000 at HDFC. -/
def c4rowA : DBRow :=
  ⟨1, cl "05-04-2023", cl "Alice", cl "HDFC", cl "IMPS TO BOB",
   5000, 0, 10000, none⟩

/-- Concrete ledger row for the C4 example: Bob is credited 5000 at SBI on
the same date. -/
def c4rowB : DBRow :=
  ⟨2, cl "05-04-2023", cl "Bob", cl "SBI", cl "IMPS FROM ALICE",
   0, 5000, 7000, none⟩

/-- Concrete table for the C9 witness: one NULL category, one non-empty
category, one empty-string category. -/
def c9db : List DBRow :=
  [⟨1, cl "01-01-2024", cl "A", cl "SBI", cl "SWIGGY LUNCH", 200, 0, 800,
    none⟩,
   ⟨2, cl "02-01-2024", cl "A", cl "SBI", cl "SALARY JAN", 0, 50000, 50800,
    some (cl "Salary & Income")⟩,
   ⟨3, cl "03-01-2024", cl "A", cl "SBI", cl "MISC", 10, 0, 50790,
    some []⟩]

/-! ## Value normalizer: safe_float (src/utils/parser.py lines 6-21) -/

/-- Python `str.replace("Rs.", "")`: structural left-to-right removal of the
three-character pattern. -/
def removeRsDot : List Char → List Char
  | 'R' :: 's' :: '.' :: rest => removeRsDot rest
  | c :: rest => c :: removeRsDot rest
  | [] => []

/-- Python `str.replace("Rs", "")`: structural left-to-right removal of the
two-character pattern. -/
def removeRs : List Char → List Char
  | 'R' :: 's' :: rest => removeRs rest
  | c :: rest => c :: removeRs rest
  | [] => []

/-- Python `float()` on a non-negative decimal literal: an optional integer
part, then optionally a dot and a fraction part; at least one digit
overall.  Exponent, underscore, inf and nan forms never arise from the
pipeline's cleaned inputs and are not modelled. -/
def parseUnsignedQ (l : List Char) : Option ℚ :=
  let ip := l.takeWhile (fun c => c.isDigit)
  let rest := l.dropWhile (fun c => c.isDigit)
  match rest with
  | [] => if ip.isEmpty then none else some ((natVal ip : ℚ))
  | '.' :: fp =>
      if ip.isEmpty && fp.isEmpty then none
      else if fp.all (fun c => c.isDigit) then
        some ((natVal ip : ℚ) + (natVal fp : ℚ) / 10 ^ fp.length)
      else none
  | _ => none

/-- Python `float()` on a string: strip surrounding whitespace, optional
sign, then a decimal literal; `none` models the `ValueError` that
`safe_float` catches. -/
def parseFloatQ (l : List Char) : Option ℚ :=
  match trimL l with
  | '-' :: rest => (parseUnsignedQ rest).map (fun q => -q)
  | '+' :: rest => parseUnsignedQ rest
  | t => parseUnsignedQ t

/-- The parenthesized-negative step of `safe_float`: a value that starts
with `(` and ends with `)` becomes a minus sign followed by the inside. -/
def parenNeg (v1 : List Char) : List Char :=
  if v1.head? = some '(' ∧ v1.getLast? = some ')' then
    '-' :: (v1.drop 1).dropLast
  else v1

/-- The string-cleaning pipeline of `safe_float`: remove commas and quote
characters and strip; turn `(...)` into a leading minus; remove the
currency marks `₹`, `Rs.`, `Rs`; strip again. -/
def cleanAmount (l : List Char) : List Char :=
  trimL (removeRs (removeRsDot
    ((parenNeg (trimL ((l.filter (fun x => x != ',')).filter
      (fun x => x != '"')))).filter (fun x => x != '₹'))))

/-- Embedding of `safe_float` (src/utils/parser.py lines 6-21) on string
input: empty input short-circuits to zero; otherwise the cleaned string is
parsed as a float, any failure yielding zero.  The Lean function is total:
the `except (ValueError, TypeError): return 0.0` branch is the `getD 0`. -/
def safe_float (l : List Char) : ℚ :=
  if l.isEmpty then 0 else (parseFloatQ (cleanAmount l)).getD 0

/-- Modelled from the spec (claim C5 wording): the optional currency prefix
of a canonically formatted amount. -/
inductive CurPfx where
  | nothing
  | rupee
  | rsDot
  | rs
deriving DecidableEq, Repr

/-- The characters of a currency prefix. -/
def CurPfx.chars : CurPfx → List Char
  | .nothing => []
  | .rupee => ['₹']
  | .rsDot => ['R', 's', '.']
  | .rs => ['R', 's']

/-- Digit groups joined with comma thousands separators. -/
def commaJoin : List (List Char) → List Char
  | [] => []
  | [g] => g
  | g :: gs => g ++ ',' :: commaJoin gs

/-- Modelled from the spec (claim C5 wording): a canonically formatted
amount string — digit groups with comma separators, an optional decimal
fraction, an optional currency prefix, the whole wrapped in parentheses
when negative. -/
def mkAmount (neg : Bool) (cur : CurPfx) (groups : List (List Char))
    (frac : List Char) : List Char :=
  let core := cur.chars ++ commaJoin groups
    ++ (if frac.isEmpty then [] else '.' :: frac)
  if neg then '(' :: core ++ [')'] else core

/-- The decimal-fraction tail of a canonical amount: nothing, or a dot
followed by the fraction digits. -/
def fracPart (frac : List Char) : List Char :=
  if frac.isEmpty then [] else '.' :: frac

/-- Modelled from the spec (claim C5 wording): the correct signed numeric
value of a canonically formatted amount — the positional value of the
concatenated digit groups plus the fraction digits scaled by their length,
negated when the amount is parenthesized. -/
def amountValue (neg : Bool) (groups : List (List Char)) (frac : List Char) : ℚ :=
  (if neg then -1 else 1)
    * ((natVal groups.flatten : ℚ) + (natVal frac : ℚ) / 10 ^ frac.length)

/-! ## Value normalizer: parse_date (src/utils/parser.py lines 23-55) -/

/-- Lower-case month abbreviations recognized by `%b` (strptime matches
month names case-insensitively). -/
def monthAbbrevs : List (List Char × ℕ) :=
  [(cl "jan", 1), (cl "feb", 2), (cl "mar", 3), (cl "apr", 4),
   (cl "may", 5), (cl "jun", 6), (cl "jul", 7), (cl "aug", 8),
   (cl "sep", 9), (cl "oct", 10), (cl "nov", 11), (cl "dec", 12)]

/-- Look up an alphabetic run as a month abbreviation, case-insensitively. -/
def monthOfAbbrev (ms : List Char) : Option ℕ :=
  (monthAbbrevs.find? (fun p => p.1 == ms.map Char.toLower)).map Prod.snd

/-- Capitalized month abbreviation, as bank statements print it. -/
def monthAbbrevU (m : ℕ) : List Char :=
  ([cl "Jan", cl "Feb", cl "Mar", cl "Apr", cl "May", cl "Jun", cl "Jul",
    cl "Aug", cl "Sep", cl "Oct", cl "Nov", cl "Dec"]).getD (m - 1) []

/-- One strptime directive of the format strings used by `parse_date`. -/
inductive FTok where
  | day
  | monthNum
  | monthAbbr
  | year2
  | year4
  | lit (c : Char)
deriving DecidableEq, Repr

/-- Parsed day-month-year fields with strptime's defaults. -/
structure DMY where
  day : ℕ
  month : ℕ
  year : ℕ
deriving DecidableEq, Repr

/-- Read one or two digits, greedily, as `%d`/`%m` do. -/
def takeDigits12 (l : List Char) : Option (ℕ × List Char) :=
  match l with
  | c1 :: rest =>
      if c1.isDigit then
        match rest with
        | c2 :: rest2 =>
            if c2.isDigit then some (10 * digVal c1 + digVal c2, rest2)
            else some (digVal c1, rest)
        | [] => some (digVal c1, [])
      else none
  | [] => none

/-- Read exactly `n` digits, as `%y` (n=2) and `%Y` (n=4) do. -/
def takeDigitsExact (n : ℕ) (l : List Char) : Option (ℕ × List Char) :=
  if (l.take n).length = n ∧ (l.take n).all (fun c => c.isDigit)
  then some (natVal (l.take n), l.drop n) else none

/-- Run a token list over the input, `strptime`-style: `%d` and `%m` take
one or two digits with the directive's value range, `%b` takes an
alphabetic run matched against the month table, `%y` takes two digits with
the 1969/2068 pivot, `%Y` four digits, and a literal must match exactly;
trailing unconverted input fails the match. -/
def runToks : List FTok → List Char → DMY → Option DMY
  | [], [], st => some st
  | [], _ :: _, _ => none
  | t :: ts, l, st =>
      match t with
      | .day =>
          match takeDigits12 l with
          | some (v, rest) =>
              if 1 ≤ v ∧ v ≤ 31 then runToks ts rest {st with day := v}
              else none
          | none => none
      | .monthNum =>
          match takeDigits12 l with
          | some (v, rest) =>
              if 1 ≤ v ∧ v ≤ 12 then runToks ts rest {st with month := v}
              else none
          | none => none
      | .monthAbbr =>
          match monthOfAbbrev (l.takeWhile (fun c => c.isAlpha)) with
          | some m =>
              runToks ts (l.dropWhile (fun c => c.isAlpha)) {st with month := m}
          | none => none
      | .year2 =>
          match takeDigitsExact 2 l with
          | some (v, rest) =>
              runToks ts rest
                {st with year := if v ≤ 68 then 2000 + v else 1900 + v}
          | none => none
      | .year4 =>
          match takeDigitsExact 4 l with
          | some (v, rest) => runToks ts rest {st with year := v}
          | none => none
      | .lit c =>
          match l with
          | x :: rest => if x = c then runToks ts rest st else none
          | [] => none

/-- Gregorian leap-year rule used by Python's `datetime`. -/
def isLeap (y : ℕ) : Bool :=
  (decide (y % 4 = 0) && !decide (y % 100 = 0)) || decide (y % 400 = 0)

/-- Days in a month, as validated by the `datetime` constructor. -/
def daysInMonth (y m : ℕ) : ℕ :=
  if m = 2 then (if isLeap y then 29 else 28)
  else if m = 4 ∨ m = 6 ∨ m = 9 ∨ m = 11 then 30 else 31

/-- Validity check that `datetime(year, month, day)` performs. -/
def validDMY (st : DMY) : Bool :=
  decide (1 ≤ st.year) && decide (1 ≤ st.month) && decide (st.month ≤ 12)
    && decide (1 ≤ st.day) && decide (st.day ≤ daysInMonth st.year st.month)

/-- `datetime.strptime` on one format: token run plus date validation. -/
def strptimeF (toks : List FTok) (l : List Char) : Option DMY :=
  match runToks toks l ⟨1, 1, 1900⟩ with
  | some st => if validDMY st then some st else none
  | none => none

/-- Format `%d-%b-%y` (SBI, e.g. 26-Apr-23). -/
def fmtDMbY2 : List FTok := [.day, .lit '-', .monthAbbr, .lit '-', .year2]

/-- Format `%d-%m-%Y`. -/
def fmtDMY4dash : List FTok := [.day, .lit '-', .monthNum, .lit '-', .year4]

/-- Format `%d/%m/%Y`. -/
def fmtDMY4slash : List FTok := [.day, .lit '/', .monthNum, .lit '/', .year4]

/-- Format `%Y-%m-%d`. -/
def fmtY4MD : List FTok := [.year4, .lit '-', .monthNum, .lit '-', .day]

/-- Format `%d-%m-%y`. -/
def fmtDMY2dash : List FTok := [.day, .lit '-', .monthNum, .lit '-', .year2]

/-- Format `%d/%m/%y` (HDFC, e.g. 01/04/23). -/
def fmtDMY2slash : List FTok := [.day, .lit '/', .monthNum, .lit '/', .year2]

/-- The fallback format chain for banks without a dedicated format. -/
def genericFormats : List (List FTok) :=
  [fmtDMbY2, fmtDMY4dash, fmtDMY4slash, fmtY4MD, fmtDMY2dash, fmtDMY2slash]

/-- The format chain `parse_date` tries for a given bank hint. -/
def bankFormats (bank : Option (List Char)) : List (List FTok) :=
  match bank with
  | some b =>
      if upperL b = cl "SBI" then [fmtDMbY2]
      else if upperL b = cl "HDFC" then [fmtDMY2slash]
      else genericFormats
  | none => genericFormats

/-- Try the formats in order, returning the first that parses. -/
def tryFormats : List (List FTok) → List Char → Option DMY
  | [], _ => none
  | f :: fs, l =>
      match strptimeF f l with
      | some st => some st
      | none => tryFormats fs l

/-- Zero-padded two-digit rendering, as `strftime` `%d`/`%m`. -/
def pad2 (n : ℕ) : List Char :=
  [Nat.digitChar (n / 10 % 10), Nat.digitChar (n % 10)]

/-- Zero-padded four-digit rendering, as `strftime` `%Y` for these years. -/
def pad4 (n : ℕ) : List Char :=
  [Nat.digitChar (n / 1000 % 10), Nat.digitChar (n / 100 % 10),
   Nat.digitChar (n / 10 % 10), Nat.digitChar (n % 10)]

/-- `strftime("%d-%m-%Y")` of a parsed date. -/
def renderDMY (st : DMY) : List Char :=
  pad2 st.day ++ '-' :: (pad2 st.month ++ '-' :: pad4 st.year)

/-- Embedding of `parse_date` (src/utils/parser.py lines 23-55): empty
input returns empty; otherwise the stripped string is tried against the
bank's format chain and rendered as `%d-%m-%Y` on success; on failure the
stripped string is returned (the code strips before trying and returns the
stripped variable). -/
def parse_date (l : List Char) (bank : Option (List Char)) : List Char :=
  if l.isEmpty then []
  else
    match tryFormats (bankFormats bank) (trimL l) with
    | some st => renderDMY st
    | none => trimL l

/-! ## CSV parsing pipeline (src/utils/parser.py `parse_csv`) -/

/-- One pass of the substitution `re.sub(r'\s+', ' ', s)` in
`clean_description`: each maximal whitespace run is replaced by a single
space.  `prevWs` records whether we are inside a run whose space was
already emitted. -/
def collWsGo (prevWs : Bool) : List Char → List Char
  | [] => []
  | c :: rest =>
      if isWs c then
        if prevWs then collWsGo true rest else ' ' :: collWsGo true rest
      else c :: collWsGo false rest

/-- `re.sub(r'\s+', ' ', s)`. -/
def collapseWs (l : List Char) : List Char := collWsGo false l

/-- State machine for `re.sub(r'--+', '', s)`: runs of two or more dashes
are deleted, a lone dash survives.  `st = 0`: normal; `st = 1`: one dash
held back; `st = 2`: inside a run already known to be deleted. -/
def rmDashGo (st : ℕ) : List Char → List Char
  | [] => if st = 1 then ['-'] else []
  | c :: rest =>
      if c = '-' then
        if st = 0 then rmDashGo 1 rest else rmDashGo 2 rest
      else
        (if st = 1 then ['-', c] else [c]) ++ rmDashGo 0 rest

/-- `re.sub(r'--+', '', s)`. -/
def rmDashRuns (l : List Char) : List Char := rmDashGo 0 l

/-- Embedding of `clean_description` (src/utils/parser.py lines 67-81):
strip, collapse whitespace runs to single spaces, delete dash runs of
length at least two, delete all stars (`re.sub(r'\*+', '')` deletes star
runs, i.e. every star). -/
def clean_description (d : List Char) : List Char :=
  (rmDashRuns (collapseWs (trimL d))).filter (fun c => c != '*')

/-- A raw CSV data row after column standardization, all five standard
fields still text as read from the file. -/
structure RawRow where
  date : List Char
  description : List Char
  debit : List Char
  credit : List Char
  balance : List Char
deriving DecidableEq, Repr

/-- The fixed encoding list `['utf-8', 'latin1', 'cp1252']` tried by
`parse_csv`. -/
inductive Enc where
  | utf8
  | latin1
  | cp1252
deriving DecidableEq, Repr

/-- The encoding loop of `parse_csv` (src/utils/parser.py lines 186-200):
an abstract reader maps each encoding to the table it yields, or `none`
for a `UnicodeDecodeError`; the first success wins, and if every encoding
fails `df is None` raises, caught by the enclosing handler. -/
def tryEncodings (read : Enc → Option (List RawRow)) : Option (List RawRow) :=
  match read Enc.utf8 with
  | some t => some t
  | none =>
      match read Enc.latin1 with
      | some t => some t
      | none => read Enc.cp1252

/-- The per-row cleaning of `parse_csv` (src/utils/parser.py lines
264-278): dates through `parse_date` with the bank hint, descriptions
through `clean_description`, the `is_sweep` flag from the cleaned
description, and the numeric columns through `safe_float`. -/
def toSRow (bank : Option (List Char)) (r : RawRow) : SRow :=
  { date := parse_date r.date bank
    description := clean_description r.description
    is_sweep := is_sweep_transaction (clean_description r.description)
    debit := safe_float r.debit
    credit := safe_float r.credit
    balance := safe_float r.balance }

/-- The date re-validation of `parse_csv` (src/utils/parser.py lines
289-292): `pd.to_datetime(df["date"], format="%d-%m-%Y", errors='coerce')`
followed by `dropna` keeps exactly the rows whose date field parses as
`%d-%m-%Y`. -/
def dateKeep (r : SRow) : Bool := (strptimeF fmtDMY4dash r.date).isSome

/-- Total order on rows used by `df.sort_values("date")`: the parsed
`%d-%m-%Y` date, encoded as a single natural number (only applied to rows
`dateKeep` accepted). -/
def dateKeyOf (r : SRow) : ℕ :=
  match strptimeF fmtDMY4dash r.date with
  | some st => (st.year * 12 + st.month) * 31 + st.day
  | none => 0

/-- Boolean comparison on `dateKeyOf` for the stable sort. -/
def dkLe (a b : SRow) : Bool := decide (dateKeyOf a ≤ dateKeyOf b)

/-- The record tuple built at src/utils/parser.py lines 307-318: the date
re-rendered by `strftime("%d-%m-%Y")` (the `safe_float` re-application to
the already numeric debit/credit/balance columns is the identity). -/
def mkCsvRecord (owner bank : List Char) (r : SRow) : PRecord :=
  { date :=
      match strptimeF fmtDMY4dash r.date with
      | some st => renderDMY st
      | none => r.date
    owner := owner
    bank := bank
    description := r.description
    debit := r.debit
    credit := r.credit
    balance := r.balance }

/-- Embedding of `parse_csv` (src/utils/parser.py lines 162-324) after
column standardization, for a file whose name yields `owner`/`bank` and
whose header yields `mod_balance`: try the encodings (all fail: the raised
error is caught, returning `[]`); clean each row; for SBI run
`process_sweep_transactions` (whose crash on a no-sweep-row frame, modelled
by `none`, is caught, returning `[]`); drop rows with empty dates, then
rows whose date does not re-parse as `%d-%m-%Y`; stable-sort by date; and
build the record tuples. -/
def parse_csv_model (owner bank : List Char) (mod_balance : ℚ)
    (read : Enc → Option (List RawRow)) : List PRecord :=
  match tryEncodings read with
  | none => []
  | some table =>
      let rows := table.map (toSRow (some bank))
      match (if upperL bank = cl "SBI"
             then process_sweep_transactions rows mod_balance
             else some rows) with
      | none => []
      | some rows2 =>
          let rows3 := (rows2.filter (fun r => !r.date.isEmpty)).filter dateKeep
          let rows4 := rows3.insertionSort (fun a b => dkLe a b = true)
          rows4.map (mkCsvRecord owner bank)

/-- C8 failing input, row 1: a valid SBI-format date and an ordinary
(non-sweep) description. -/
def c8rowGood : RawRow :=
  ⟨cl "26-Apr-23", cl "POS AMAZON PURCHASE", cl "", cl "", cl ""⟩

/-- C8 failing input, row 2: an unparsable date on an ordinary row. -/
def c8rowBad : RawRow :=
  ⟨cl "garbage", cl "POS FLIPKART", cl "", cl "", cl ""⟩

/-- C8 failing input: the standardized table of the SBI file. -/
def c8table : List RawRow := [c8rowGood, c8rowBad]

/-- C8 failing input: the file reads successfully in the first encoding. -/
def c8read : Enc → Option (List RawRow) := fun _ => some c8table

theorem firstRuleMatch_mem {u lab : List Char}
    {rules : List (List Char × List (List Char))}
    (h : firstRuleMatch u rules = some lab) : lab ∈ rules.map Prod.fst := by
  induction rules with
  | nil => simp [firstRuleMatch] at h
  | cons r rest ih =>
      by_cases hr : r.2.any (fun k => containsSub k u) = true
      · simp only [firstRuleMatch, hr, if_pos] at h
        simp [List.mem_map]
        exact Or.inl (Option.some.inj h).symm
      · simp only [firstRuleMatch, hr] at h
        simp only [Bool.false_eq_true, if_false] at h
        simp [ih h]

theorem firstRuleMatch_none {u : List Char}
    {rules : List (List Char × List (List Char))}
    (h : rules.any (fun r => r.2.any (fun k => containsSub k u)) = false) :
    firstRuleMatch u rules = none := by
  induction rules with
  | nil => rfl
  | cons r rest ih =>
      simp only [List.any_cons, Bool.or_eq_false_iff] at h
      simp only [firstRuleMatch, h.1, Bool.false_eq_true, if_false]
      exact ih h.2

/-- Every output of the categorizer is one of the known labels. -/
theorem categorize_mem_labels (d : List Char) :
    categorize_transaction d ∈ categoryLabels := by
  unfold categorize_transaction
  by_cases hd : d.isEmpty
  · simp [hd, categoryLabels]
  · simp only [hd, Bool.false_eq_true, if_false]
    cases hm : firstRuleMatch (upperL d) catRules with
    | some lab =>
        simp only [categoryLabels]
        exact List.mem_append_left _ (firstRuleMatch_mem hm)
    | none =>
        simp only [categoryLabels]
        split
        · simp
        · split
          · simp
          · split
            · simp
            · simp

/-- C7: categorization is total and deterministic (it is a pure function):
every description string, including the empty string, maps to exactly one
category label, with "Other" returned when no ordered keyword rule and no
fallback regex matches; in particular "SWIGGY ORDER 48213" maps to
"Food & Dining", "UPI/YESB/1234/JOHN" maps to "Transfers", and
"MISC ADJ ENTRY" maps to "Other".  Every output is one of the known
labels. -/
theorem c7_categorize_total_default (s : List Char)
    (h1 : ruleHit (upperL s) = false) (h2 : regexHit (upperL s) = false) :
    categorize_transaction s = cl "Other"
    ∧ categorize_transaction [] = cl "Other"
    ∧ categorize_transaction (cl "SWIGGY ORDER 48213") = cl "Food & Dining"
    ∧ categorize_transaction (cl "UPI/YESB/1234/JOHN") = cl "Transfers"
    ∧ categorize_transaction (cl "MISC ADJ ENTRY") = cl "Other"
    ∧ (∀ t, categorize_transaction t ∈ categoryLabels) := by
  refine ⟨?_, by decide, by decide, by decide, by decide, categorize_mem_labels⟩
  unfold categorize_transaction
  by_cases hd : s.isEmpty
  · simp [hd]
  · simp only [hd, Bool.false_eq_true, if_false]
    rw [firstRuleMatch_none h1]
    simp only [regexHit, Bool.or_eq_false_iff] at h2
    simp [h2.1.1, h2.1.2, h2.2.1, h2.2.2]

/-- Witness for C7 at the concrete input "MISC ADJ ENTRY": no ordered rule
and no fallback regex matches it, and the categorizer sends it (and the
other example descriptions) to the stated labels. -/
theorem c7_categorize_total_default_witness :
    (ruleHit (upperL (cl "MISC ADJ ENTRY")) = false
      ∧ regexHit (upperL (cl "MISC ADJ ENTRY")) = false)
    ∧ (categorize_transaction (cl "MISC ADJ ENTRY") = cl "Other"
    ∧ categorize_transaction [] = cl "Other"
    ∧ categorize_transaction (cl "SWIGGY ORDER 48213") = cl "Food & Dining"
    ∧ categorize_transaction (cl "UPI/YESB/1234/JOHN") = cl "Transfers"
    ∧ categorize_transaction (cl "MISC ADJ ENTRY") = cl "Other"
    ∧ (∀ t, categorize_transaction t ∈ categoryLabels)) :=
  ⟨⟨by decide, by decide⟩,
    c7_categorize_total_default (cl "MISC ADJ ENTRY") (by decide) (by decide)⟩

/-- C10: because category rules are tested in fixed table order with
substring matching, the Utilities & Bills keyword "VI" occurs as a substring
of "MOVIE", so `categorize_transaction` returns "Utilities & Bills" for
"MOVIE" even though "MOVIE" is itself a keyword of the later Entertainment
category. -/
theorem c10_earlier_keyword_shadows :
    categorize_transaction (cl "MOVIE") = cl "Utilities & Bills"
    ∧ categorize_transaction (cl "MOVIE") ≠ cl "Entertainment"
    ∧ containsSub (cl "VI") (upperL (cl "MOVIE")) = true
    ∧ catRules.any
        (fun r => r.1 == cl "Utilities & Bills" && r.2.contains (cl "VI")) = true
    ∧ catRules.any
        (fun r => r.1 == cl "Entertainment" && r.2.contains (cl "MOVIE")) = true
    ∧ (catRules.map Prod.fst).findIdx (fun r => r == cl "Utilities & Bills")
        < (catRules.map Prod.fst).findIdx (fun r => r == cl "Entertainment") := by
  refine ⟨by decide, by decide, by decide, by decide, by decide, by decide⟩

theorem processSweepAux_eq_amendedAux (rows : List SRow)
    (hflag : ∀ r ∈ rows, r.is_sweep = is_sweep_transaction r.description) :
    ∀ sb adj, processSweepAux sb adj rows = sweepAmendedAux sb adj rows := by
  induction rows with
  | nil => intro sb adj; rfl
  | cons r rest ih =>
      intro sb adj
      have hr : r.is_sweep = is_sweep_transaction r.description :=
        hflag r (List.mem_cons_self r rest)
      have hrest := fun x hx => hflag x (List.mem_cons_of_mem r hx)
      obtain ⟨d, de, isw, deb, cr, bal⟩ := r
      simp only at hr
      subst hr
      simp only [processSweepAux, sweepAmendedAux]
      by_cases h1 : is_sweep_transaction de = true
      · simp only [h1, if_pos]
        split
        · exact ih hrest _ _
        · split
          · exact ih hrest _ _
          · exact ih hrest _ _
      · simp only [h1]
        simp only [Bool.false_eq_true] at h1
        simp only [h1, Bool.false_eq_true, if_false]
        rw [ih hrest sb 0]
        by_cases hadj : adj = 0
        · simp [hadj]
        · simp [hadj]

/-- C2: the sweep pass is NOT balance-neutral.  On the consistent history
`c2rows` (opening balance 1000; a DEBIT SWEEP row of 500 then a purchase of
100), the code leaves the survivor with balance -100 while a statement
without any sweep product shows 900, and the removed deltas plus the
applied adjustments net to -1000, not 0: the loop subtracts the sweep
amount from `balance_adjustment` for "DEBIT SWEEP" rows (duplicating the
removed delta instead of cancelling it) and resets the adjustment after a
single surviving row. -/
theorem c2_sweep_not_balance_neutral :
    balanceConsistent 1000 c2rows = true
    ∧ c2rows.all (fun r => r.is_sweep == is_sweep_transaction r.description) = true
    ∧ process_sweep_transactions c2rows 0
        = some [⟨cl "02-04-2023", cl "POS PURCHASE", false, 100, 0, -100⟩]
    ∧ recomputeBalances 1000 (survivorsRaw c2rows)
        = [⟨cl "02-04-2023", cl "POS PURCHASE", false, 100, 0, 900⟩]
    ∧ removedSweepDelta c2rows + appliedAdjTotal c2rows 0 = -1000
    ∧ removedSweepDelta c2rows + appliedAdjTotal c2rows 0 ≠ 0
    ∧ (processSweepAux 0 0 c2rows).1
        ≠ recomputeBalances 1000 (survivorsRaw c2rows) := by
  refine ⟨?_, by decide, ?_, ?_, ?_, ?_, ?_⟩
  · norm_num +decide [balanceConsistent, c2rows]
  · norm_num +decide [process_sweep_transactions, processSweepAux, c2rows]
  · norm_num +decide [recomputeBalances, survivorsRaw, c2rows]
  · norm_num +decide [removedSweepDelta, appliedAdjTotal, survivorsRaw,
      processSweepAux, c2rows]
  · norm_num +decide [removedSweepDelta, appliedAdjTotal, survivorsRaw,
      processSweepAux, c2rows]
  · norm_num +decide [processSweepAux, recomputeBalances, survivorsRaw, c2rows]

/-- C3 counterexample: the row "SWEEP FROM MOD" is flagged by
`is_sweep_transaction` and removed by the code with no state change, while
the state machine described by the claim (matching only the two known
phrasings) treats it as a non-matching row: it keeps the row.  So the code
differs from the claimed transition rules at this input. -/
theorem c3_counterexample :
    c3row.is_sweep = is_sweep_transaction c3row.description
    ∧ process_sweep_transactions [c3row] 0 = some []
    ∧ sweepSpecMachine [c3row] 0 = [c3row]
    ∧ process_sweep_transactions [c3row] 0 ≠ some (sweepSpecMachine [c3row] 0) := by
  have h3 : sweepSpecMachine [c3row] 0 = [c3row] := by
    norm_num +decide [sweepSpecMachine, sweepSpecAux, c3row]
  refine ⟨by decide, by decide, h3, ?_⟩
  rw [h3]
  decide

/-- C3 (amended): processing rows in order from pending delta 0, every row
FLAGGED by `is_sweep_transaction` (four keywords) is removed; among the
removed rows only those whose description contains "DEBIT SWEEP" (amount
added to the sweep balance, subtracted from the pending delta) or
"TRANSFER CREDIT-SWEEP" (amount subtracted from the sweep balance, added to
the pending delta) update the state, the amount being debit if positive
else credit; other flagged rows are removed with no state change; every
unflagged row has the pending accumulated delta applied to its balance and
the delta then reset to zero; the surviving rows are returned provided at
least one row was flagged. -/
theorem c3_sweep_transitions_amended (rows : List SRow) (mb : ℚ)
    (hflag : rows.all
      (fun r => r.is_sweep == is_sweep_transaction r.description) = true) :
    processSweepAux mb 0 rows = sweepAmendedAux mb 0 rows
    ∧ (rows.any (fun r => r.is_sweep) = true →
        process_sweep_transactions rows mb = some (sweepAmendedAux mb 0 rows).1) := by
  have hflag2 : ∀ r ∈ rows, r.is_sweep = is_sweep_transaction r.description := by
    intro r hr
    have := List.all_eq_true.mp hflag r hr
    exact beq_iff_eq.mp this
  refine ⟨processSweepAux_eq_amendedAux rows hflag2 mb 0, ?_⟩
  intro hany
  have hne : rows.isEmpty = false := by
    cases rows with
    | nil => simp [List.any_nil] at hany
    | cons a l => rfl
  unfold process_sweep_transactions
  rw [hne, hany]
  simp [processSweepAux_eq_amendedAux rows hflag2 mb 0]

/-- Witness for the amended C3 at the concrete one-row history `[c3row]`,
whose flag agrees with `is_sweep_transaction`. -/
theorem c3_sweep_transitions_amended_witness :
    ([c3row].all (fun r => r.is_sweep == is_sweep_transaction r.description) = true)
    ∧ (processSweepAux 0 0 [c3row] = sweepAmendedAux 0 0 [c3row]
      ∧ ([c3row].any (fun r => r.is_sweep) = true →
          process_sweep_transactions [c3row] 0
            = some (sweepAmendedAux 0 0 [c3row]).1)) :=
  ⟨by decide, c3_sweep_transitions_amended [c3row] 0 (by decide)⟩

/-- C1: the claim says duplicates are excluded from insertion and the
transaction count is unchanged when a fully duplicate batch is re-ingested.
The code (src/app.py lines 70-81) counts the duplicates but then calls
`insert_transactions` on the full batch anyway: re-ingesting the one-record
batch into the one-row ledger reports 1 duplicate yet grows the ledger to 2
rows. -/
theorem c1_duplicates_counted_not_excluded :
    check_duplicate_transactions c1db [c1rec] = 1
    ∧ get_transaction_count c1db = 1
    ∧ (loadFile c1db [c1rec]).2 = 1
    ∧ get_transaction_count (loadFile c1db [c1rec]).1 = 2 := by
  refine ⟨by decide, by decide, by decide, by decide⟩

theorem count_map_pair {α β : Type} [DecidableEq α] [DecidableEq β]
    (x : α) (l2 : List β) (a : α) (b : β) :
    (l2.map (fun y => (x, y))).count (a, b)
      = if x = a then l2.count b else 0 := by
  induction l2 with
  | nil => simp
  | cons c cs ih =>
      simp only [List.map_cons, List.count_cons, ih, Prod.mk.injEq,
        beq_iff_eq]
      by_cases hx : x = a
      · by_cases hc : c = b
        · simp [hx, hc]
        · simp [hx, hc]
      · simp [hx]

theorem count_pairsAll {α β : Type} [DecidableEq α] [DecidableEq β]
    (l1 : List α) (l2 : List β) (a : α) (b : β) :
    (pairsAll l1 l2).count (a, b) = l1.count a * l2.count b := by
  induction l1 with
  | nil => simp [pairsAll]
  | cons x xs ih =>
      simp only [pairsAll, List.count_append, ih, count_map_pair,
        List.count_cons, beq_iff_eq]
      by_cases hx : x = a
      · simp only [hx, if_pos]
        ring
      · simp [hx]

/-- C4: for ledger rows A and B on the same date with `A.debit > 0`,
`A.debit = B.credit`, differing in owner or bank, and each row having at
most one positive side (the CanonicalTransaction invariant), the exact-match
phase joins the ordered pair (A, B) but not (B, A): among the join results
exactly one comes from this pair of rows, labeled "Inter-Bank (Same
Person)" exactly when the owners are equal, with amount `A.debit`; on the
two-row ledger `[A, B]` the phase output is exactly the one record. -/
theorem c4_exact_transfer_pair_unique (db : List DBRow) (A B : DBRow)
    (hd : 0 < A.debit) (heq : A.debit = B.credit) (hdate : A.date = B.date)
    (hdiff : A.owner ≠ B.owner ∨ A.bank ≠ B.bank)
    (hA : ¬ (0 < A.debit ∧ 0 < A.credit)) (hB : ¬ (0 < B.debit ∧ 0 < B.credit))
    (hcA : db.count A = 1) (hcB : db.count B = 1) :
    (exactJoinPairs db).count (A, B) + (exactJoinPairs db).count (B, A) = 1
    ∧ get_inter_person_transfers [A, B] = [mkTransferRecord A B]
    ∧ (mkTransferRecord A B).amount = A.debit
    ∧ (mkTransferRecord A B).transfer_type
        = (if A.owner = B.owner then cl "Inter-Bank (Same Person)"
           else cl "Inter-Person Transfer") := by
  have hd2 : 0 < B.credit := heq ▸ hd
  have hpredAB : transferJoinPred A B = true := by
    rcases hdiff with h | h <;>
      simp [transferJoinPred, hdate, heq, hd, hd2, h, bne_iff_ne]
  have hBd : ¬ (0 < B.debit) := fun hb => hB ⟨hb, heq ▸ hd⟩
  have hpredBA : transferJoinPred B A = false := by
    have hdec : decide (B.debit > 0) = false := decide_eq_false hBd
    simp [transferJoinPred, hdec]
  have hpredAA : transferJoinPred A A = false := by
    simp [transferJoinPred]
  have hpredBB : transferJoinPred B B = false := by
    simp [transferJoinPred]
  refine ⟨?_, ?_, rfl, rfl⟩
  · have h1 : (exactJoinPairs db).count (A, B) = 1 := by
      unfold exactJoinPairs
      rw [@List.count_filter _ _ _ (fun q => transferJoinPred q.1 q.2) (A, B)
        (pairsAll db db) hpredAB, count_pairsAll, hcA, hcB]
    have h2 : (exactJoinPairs db).count (B, A) = 0 := by
      rw [List.count_eq_zero]
      intro hmem
      have := List.of_mem_filter hmem
      rw [hpredBA] at this
      exact absurd this (by simp)
    rw [h1, h2]
  · unfold get_inter_person_transfers exactJoinPairs
    simp [pairsAll, hpredAA, hpredAB, hpredBA, hpredBB]

/-- Witness for C4 at the claim's concrete scenario: same date, Alice at
HDFC debited 5000, Bob at SBI credited 5000; the phase reports exactly one
record, of type "Inter-Person Transfer" and amount 5000. -/
theorem c4_exact_transfer_pair_unique_witness :
    (0 < c4rowA.debit ∧ c4rowA.debit = c4rowB.credit
      ∧ c4rowA.date = c4rowB.date
      ∧ (c4rowA.owner ≠ c4rowB.owner ∨ c4rowA.bank ≠ c4rowB.bank)
      ∧ ¬ (0 < c4rowA.debit ∧ 0 < c4rowA.credit)
      ∧ ¬ (0 < c4rowB.debit ∧ 0 < c4rowB.credit)
      ∧ [c4rowA, c4rowB].count c4rowA = 1
      ∧ [c4rowA, c4rowB].count c4rowB = 1)
    ∧ ((exactJoinPairs [c4rowA, c4rowB]).count (c4rowA, c4rowB)
          + (exactJoinPairs [c4rowA, c4rowB]).count (c4rowB, c4rowA) = 1
      ∧ get_inter_person_transfers [c4rowA, c4rowB]
          = [mkTransferRecord c4rowA c4rowB]
      ∧ (mkTransferRecord c4rowA c4rowB).amount = c4rowA.debit
      ∧ (mkTransferRecord c4rowA c4rowB).transfer_type
          = (if c4rowA.owner = c4rowB.owner then cl "Inter-Bank (Same Person)"
             else cl "Inter-Person Transfer"))
    ∧ (mkTransferRecord c4rowA c4rowB).transfer_type
        = cl "Inter-Person Transfer"
    ∧ (mkTransferRecord c4rowA c4rowB).amount = 5000 :=
  ⟨⟨by decide, by decide, by decide, Or.inl (by decide), by decide, by decide,
    by decide, by decide⟩,
   c4_exact_transfer_pair_unique [c4rowA, c4rowB] c4rowA c4rowB (by decide)
     (by decide) (by decide) (Or.inl (by decide)) (by decide) (by decide)
     (by decide) (by decide),
   by decide, by decide⟩

theorem sqlUpdateCategory_fields (db : List DBRow) (tid : ℕ) (cat : List Char)
    {t : DBRow} (ht : t ∈ sqlUpdateCategory db tid cat) :
    ∃ s ∈ db, t.id = s.id ∧ t.description = s.description := by
  simp only [sqlUpdateCategory, List.mem_map] at ht
  obtain ⟨s, hs, rfl⟩ := ht
  refine ⟨s, hs, ?_⟩
  by_cases hid : s.id = tid
  · simp [hid]
  · simp [hid]

theorem foldUpdate_eq (sel : List (ℕ × List Char)) :
    ∀ db : List DBRow,
    (∀ p ∈ sel, ∀ t ∈ db, t.id = p.1 → t.description = p.2) →
    sel.foldl
      (fun acc p => sqlUpdateCategory acc p.1 (categorize_transaction p.2)) db
    = db.map (fun t =>
        if (sel.map Prod.fst).contains t.id
        then {t with category := some (categorize_transaction t.description)}
        else t) := by
  induction sel with
  | nil =>
      intro db _
      simp
  | cons p ps ih =>
      intro db h
      simp only [List.foldl_cons]
      have hcond : ∀ q ∈ ps, ∀ t' ∈ sqlUpdateCategory db p.1
          (categorize_transaction p.2), t'.id = q.1 → t'.description = q.2 := by
        intro q hq t' ht' hid
        obtain ⟨s, hs, hsid, hsdesc⟩ :=
          sqlUpdateCategory_fields db p.1 (categorize_transaction p.2) ht'
        rw [hsdesc]
        exact h q (List.mem_cons_of_mem p hq) s hs (hsid ▸ hid)
      rw [ih _ hcond]
      simp only [sqlUpdateCategory, List.map_map]
      apply List.map_congr_left
      intro t ht
      simp only [Function.comp]
      by_cases hpt : t.id = p.1
      · have hdp : t.description = p.2 := h p (List.mem_cons_self p ps) t ht hpt
        have hcontains : ((p :: ps).map Prod.fst).contains t.id = true := by
          simp [List.contains_cons, hpt]
        simp only [hpt, if_pos, hcontains, List.map_cons, ← hdp]
        by_cases hmem : (ps.map Prod.fst).contains t.id = true
        · simp [hmem, List.contains_cons]
        · simp only [Bool.not_eq_true] at hmem
          simp [hmem, List.contains_cons]
      · rw [if_neg hpt]
        simp only [List.map_cons]
        have hne1 : (t.id == p.1) = false := beq_eq_false_iff_ne.mpr hpt
        have hBA : (p.1 :: List.map Prod.fst ps).contains t.id
            = (List.map Prod.fst ps).contains t.id := by
          rw [List.contains_cons, hne1, Bool.false_or]
        simp only [hBA]

/-- C9: with distinct primary keys, the bulk re-categorization updates
exactly the rows whose category is NULL or empty — each gets the
categorizer's output for its own description and keeps every other field —
while rows with a non-empty category are untouched; the reported count is
the number of such rows. -/
theorem c9_recategorize_frame (db : List DBRow)
    (hids : (db.map (fun t => t.id)).Nodup) :
    (update_categories_for_existing_transactions db).1
      = db.map (fun t =>
          if catEmpty t.category
          then {t with category := some (categorize_transaction t.description)}
          else t)
    ∧ (update_categories_for_existing_transactions db).2
      = db.countP (fun t => catEmpty t.category) := by
  have hinj := List.inj_on_of_nodup_map hids
  constructor
  · unfold update_categories_for_existing_transactions
    simp only
    rw [foldUpdate_eq _ db ?hsel]
    case hsel =>
      intro q hq t ht hid
      simp only [List.mem_map, List.mem_filter] at hq
      obtain ⟨s, ⟨hs, _⟩, rfl⟩ := hq
      have ht2 : t = s := hinj ht hs hid
      rw [ht2]
    apply List.map_congr_left
    intro t ht
    by_cases hcat : catEmpty t.category = true
    · have hmem : t.id ∈ ((db.filter (fun s => catEmpty s.category)).map
          (fun s => (s.id, s.description))).map Prod.fst := by
        simp only [List.map_map, List.mem_map, Function.comp]
        exact ⟨t, List.mem_filter.mpr ⟨ht, hcat⟩, rfl⟩
      have hcontains := List.elem_eq_true_of_mem hmem
      rw [if_pos hcontains, if_pos hcat]
    · have hnotmem : t.id ∉ ((db.filter (fun s => catEmpty s.category)).map
          (fun s => (s.id, s.description))).map Prod.fst := by
        simp only [List.map_map, List.mem_map, Function.comp]
        rintro ⟨s, hsf, hsid⟩
        have hs2 := List.mem_filter.mp hsf
        have : s = t := hinj hs2.1 ht hsid
        rw [this] at hs2
        exact hcat hs2.2
      have hcontains : (((db.filter (fun s => catEmpty s.category)).map
          (fun s => (s.id, s.description))).map Prod.fst).contains t.id
            = false := by
        cases hq : (((db.filter (fun s => catEmpty s.category)).map
            (fun s => (s.id, s.description))).map Prod.fst).contains t.id with
        | false => rfl
        | true =>
            exact absurd (List.mem_of_elem_eq_true hq) hnotmem
      rw [if_neg (by rw [hcontains]; simp), if_neg hcat]
  · unfold update_categories_for_existing_transactions
    simp [List.countP_eq_length_filter]

/-- Witness for C9 on the concrete three-row table `c9db` (distinct ids;
one NULL category, one already-categorized row, one empty-string
category). -/
theorem c9_recategorize_frame_witness :
    ((c9db.map (fun t => t.id)).Nodup)
    ∧ ((update_categories_for_existing_transactions c9db).1
        = c9db.map (fun t =>
            if catEmpty t.category
            then {t with category := some (categorize_transaction t.description)}
            else t)
      ∧ (update_categories_for_existing_transactions c9db).2
        = c9db.countP (fun t => catEmpty t.category)) :=
  ⟨by decide, c9_recategorize_frame c9db (by decide)⟩

theorem digit_ne {c x : Char} (h : c.isDigit = true) (hx : x.isDigit = false) :
    c ≠ x :=
  fun e => by subst e; rw [h] at hx; cases hx

theorem ws_not_digit {c : Char} (h : isWs c = true) : c.isDigit = false := by
  simp only [isWs, Char.isWhitespace, Bool.or_eq_true, decide_eq_true_eq] at h
  rcases h with ((h1 | h1) | h1) | h1 <;> (subst h1; decide)

theorem digit_not_ws {c : Char} (h : c.isDigit = true) : isWs c = false := by
  cases hw : isWs c with
  | false => rfl
  | true => rw [ws_not_digit hw] at h; cases h

theorem filter_ne_eq_self {c : Char} {l : List Char} (h : ∀ x ∈ l, x ≠ c) :
    l.filter (fun x => x != c) = l :=
  List.filter_eq_self.mpr (fun a ha => by simp [bne_iff_ne, h a ha])

theorem dropWhileWs_eq_self {l : List Char} (h : ∀ c ∈ l, isWs c = false) :
    l.dropWhile isWs = l := by
  cases l with
  | nil => rfl
  | cons c rest =>
      rw [List.dropWhile_cons, h c (List.mem_cons_self c rest)]
      simp

theorem trimL_eq_self {l : List Char} (h : ∀ c ∈ l, isWs c = false) :
    trimL l = l := by
  unfold trimL
  rw [dropWhileWs_eq_self h,
    dropWhileWs_eq_self (fun c hc => h c (List.mem_reverse.mp hc)),
    List.reverse_reverse]

theorem removeRsDot_cons_ne {c : Char} (l : List Char) (hc : c ≠ 'R') :
    removeRsDot (c :: l) = c :: removeRsDot l := by
  rw [removeRsDot.eq_def]
  split
  · rename_i rest heq
    injection heq with h1 h2
    exact absurd h1 hc
  · rename_i c2 rest2 hno heq
    injection heq with h1 h2
    subst h1
    subst h2
    rfl
  · rename_i heq
    exact absurd heq (by simp)

theorem removeRsDot_pat (l : List Char) :
    removeRsDot ('R' :: 's' :: '.' :: l) = removeRsDot l := by
  rw [removeRsDot.eq_def]
  rfl

theorem removeRsDot_rs_ne {c : Char} (l : List Char) (hc : c ≠ '.') :
    removeRsDot ('R' :: 's' :: c :: l) = 'R' :: 's' :: removeRsDot (c :: l) := by
  rw [removeRsDot.eq_def]
  split
  · rename_i rest heq
    injection heq with h1 h2
    injection h2 with h3 h4
    injection h4 with h5 h6
    exact absurd h5 hc
  · rename_i c2 rest2 hno heq
    injection heq with h1 h2
    subst h1
    subst h2
    rw [removeRsDot_cons_ne (c :: l) (by decide)]
  · rename_i heq
    exact absurd heq (by simp)

theorem removeRsDot_free {l : List Char} (h : ∀ c ∈ l, c ≠ 'R') :
    removeRsDot l = l := by
  induction l with
  | nil => rfl
  | cons c rest ih =>
      rw [removeRsDot_cons_ne rest (h c (List.mem_cons_self c rest)),
        ih (fun x hx => h x (List.mem_cons_of_mem c hx))]

theorem removeRs_cons_ne {c : Char} (l : List Char) (hc : c ≠ 'R') :
    removeRs (c :: l) = c :: removeRs l := by
  rw [removeRs.eq_def]
  split
  · rename_i rest heq
    injection heq with h1 h2
    exact absurd h1 hc
  · rename_i c2 rest2 hno heq
    injection heq with h1 h2
    subst h1
    subst h2
    rfl
  · rename_i heq
    exact absurd heq (by simp)

theorem removeRs_pat (l : List Char) :
    removeRs ('R' :: 's' :: l) = removeRs l := by
  rw [removeRs.eq_def]
  rfl

theorem removeRs_free {l : List Char} (h : ∀ c ∈ l, c ≠ 'R') :
    removeRs l = l := by
  induction l with
  | nil => rfl
  | cons c rest ih =>
      rw [removeRs_cons_ne rest (h c (List.mem_cons_self c rest)),
        ih (fun x hx => h x (List.mem_cons_of_mem c hx))]

theorem commaJoin_filter {groups : List (List Char)}
    (h : ∀ g ∈ groups, ∀ c ∈ g, c.isDigit = true) :
    (commaJoin groups).filter (fun x => x != ',') = groups.flatten := by
  induction groups with
  | nil => rfl
  | cons g gs ih =>
      cases gs with
      | nil =>
          show (commaJoin [g]).filter (fun x => x != ',') = [g].flatten
          rw [commaJoin]
          rw [filter_ne_eq_self (fun x hx =>
            digit_ne (h g (List.mem_cons_self g []) x hx) (by decide))]
          simp
      | cons g2 gs2 =>
          show (commaJoin (g :: g2 :: gs2)).filter (fun x => x != ',')
            = (g :: g2 :: gs2).flatten
          rw [commaJoin.eq_def]
          simp only
          rw [List.filter_append, List.filter_cons]
          rw [filter_ne_eq_self (fun x hx =>
            digit_ne (h g (List.mem_cons_self g (g2 :: gs2)) x hx) (by decide))]
          have := ih (fun g3 hg3 c hc =>
            h g3 (List.mem_cons_of_mem g hg3) c hc)
          simp only [show ((',' : Char) != ',') = false by decide,
            Bool.false_eq_true, if_false]
          rw [this]
          simp [List.flatten]

theorem takeWhile_digits_append (G rest : List Char)
    (hG : ∀ c ∈ G, c.isDigit = true)
    (hrest : ∀ c, rest.head? = some c → c.isDigit = false) :
    (G ++ rest).takeWhile (fun c => c.isDigit) = G
    ∧ (G ++ rest).dropWhile (fun c => c.isDigit) = rest := by
  induction G with
  | nil =>
      cases rest with
      | nil => exact ⟨rfl, rfl⟩
      | cons c r =>
          have hc := hrest c rfl
          constructor
          · simp [List.takeWhile_cons, hc]
          · simp [List.dropWhile_cons, hc]
  | cons d G2 ih =>
      have hd := hG d (List.mem_cons_self d G2)
      have ih2 := ih (fun c hc => hG c (List.mem_cons_of_mem d hc))
      constructor
      · simp only [List.cons_append, List.takeWhile_cons, hd, if_pos]
        rw [ih2.1]
      · simp only [List.cons_append, List.dropWhile_cons, hd, if_pos]
        exact ih2.2

theorem parseUnsignedQ_eval (G frac : List Char)
    (hG : ∀ c ∈ G, c.isDigit = true) (hGne : G ≠ [])
    (hf : ∀ c ∈ frac, c.isDigit = true) :
    parseUnsignedQ (G ++ (if frac.isEmpty then [] else '.' :: frac))
      = some ((natVal G : ℚ) + (natVal frac : ℚ) / 10 ^ frac.length) := by
  have hGE : G.isEmpty = false := by
    cases G with
    | nil => exact absurd rfl hGne
    | cons a l => rfl
  cases frac with
  | nil =>
      simp only [List.isEmpty_nil, if_pos, List.append_nil]
      have htd := takeWhile_digits_append G [] hG (fun c hc => by simp at hc)
      rw [List.append_nil] at htd
      unfold parseUnsignedQ
      rw [htd.1, htd.2]
      simp only [hGE, Bool.false_eq_true, if_false]
      norm_num [natVal]
  | cons f fs =>
      simp only [List.isEmpty_cons, Bool.false_eq_true, if_false]
      have htd := takeWhile_digits_append G ('.' :: f :: fs) hG
        (fun c hc => by
          simp only [List.head?_cons, Option.some.injEq] at hc
          subst hc
          decide)
      unfold parseUnsignedQ
      rw [htd.1, htd.2]
      simp only [hGE, Bool.false_and, Bool.false_eq_true, if_false]
      rw [if_pos (List.all_eq_true.mpr (fun c hc => hf c hc))]

theorem parseFloatQ_cons_other {c : Char} (l : List Char)
    (h1 : c ≠ '-') (h2 : c ≠ '+') (hws : ∀ x ∈ c :: l, isWs x = false) :
    parseFloatQ (c :: l) = parseUnsignedQ (c :: l) := by
  unfold parseFloatQ
  rw [trimL_eq_self hws]
  split
  · rename_i rest heq
    injection heq with ha hb
    exact absurd ha h1
  · rename_i rest heq
    injection heq with ha hb
    exact absurd ha h2
  · rfl

theorem parseFloatQ_neg (l : List Char)
    (hws : ∀ x ∈ '-' :: l, isWs x = false) :
    parseFloatQ ('-' :: l) = (parseUnsignedQ l).map (fun q => -q) := by
  unfold parseFloatQ
  rw [trimL_eq_self hws]
  rfl

theorem fracPart_chars {frac : List Char}
    (hf : ∀ c ∈ frac, c.isDigit = true) :
    ∀ c ∈ fracPart frac, c.isDigit = true ∨ c = '.' := by
  intro c hc
  unfold fracPart at hc
  cases frac with
  | nil => simp at hc
  | cons f fs =>
      simp only [List.isEmpty_cons, Bool.false_eq_true, if_false] at hc
      rcases List.mem_cons.mp hc with h | h
      · exact Or.inr h
      · exact Or.inl (hf c h)

theorem flatten_digits {groups : List (List Char)}
    (hg2 : ∀ g ∈ groups, ∀ c ∈ g, c.isDigit = true) :
    ∀ c ∈ groups.flatten, c.isDigit = true := by
  intro c hc
  rw [List.mem_flatten] at hc
  obtain ⟨g, hg, hcg⟩ := hc
  exact hg2 g hg c hcg

theorem digitsDot_ne {l : List Char}
    (hl : ∀ c ∈ l, c.isDigit = true ∨ c = '.')
    {x : Char} (hx1 : x.isDigit = false) (hx2 : x ≠ '.') :
    ∀ c ∈ l, c ≠ x := by
  intro c hc
  rcases hl c hc with h | h
  · exact digit_ne h hx1
  · rw [h]
    exact fun e => hx2 e.symm

theorem digitsDot_not_ws {l : List Char}
    (hl : ∀ c ∈ l, c.isDigit = true ∨ c = '.') :
    ∀ c ∈ l, isWs c = false := by
  intro c hc
  rcases hl c hc with h | h
  · exact digit_not_ws h
  · rw [h]
    decide

theorem mkAmount_clean_stage1 (neg : Bool) (cur : CurPfx)
    (groups : List (List Char)) (frac : List Char)
    (hg2 : ∀ g ∈ groups, ∀ c ∈ g, c.isDigit = true)
    (hf : ∀ c ∈ frac, c.isDigit = true) :
    trimL (((mkAmount neg cur groups frac).filter (fun x => x != ',')).filter
        (fun x => x != '"'))
      = (if neg then ['('] else []) ++ cur.chars
        ++ (groups.flatten ++ fracPart frac)
        ++ (if neg then [')'] else []) := by
  have hD : ∀ c ∈ groups.flatten ++ fracPart frac, c.isDigit = true ∨ c = '.' := by
    intro c hc
    rcases List.mem_append.mp hc with h | h
    · exact Or.inl (flatten_digits hg2 c h)
    · exact fracPart_chars hf c h
  have hcur_c : (CurPfx.chars cur).filter (fun x => x != ',') = cur.chars := by
    cases cur <;> decide
  have hcur_q : (CurPfx.chars cur).filter (fun x => x != '"') = cur.chars := by
    cases cur <;> decide
  have hcur_ws : ∀ c ∈ CurPfx.chars cur, isWs c = false := by
    cases cur <;> decide
  have hfp_c : (fracPart frac).filter (fun x => x != ',') = fracPart frac :=
    filter_ne_eq_self (digitsDot_ne (fracPart_chars hf) (by decide) (by decide))
  have hD_q : (groups.flatten ++ fracPart frac).filter (fun x => x != '"')
      = groups.flatten ++ fracPart frac :=
    filter_ne_eq_self (digitsDot_ne hD (by decide) (by decide))
  have hD_ws : ∀ c ∈ groups.flatten ++ fracPart frac, isWs c = false :=
    digitsDot_not_ws hD
  have hcj : (commaJoin groups).filter (fun x => x != ',') = groups.flatten :=
    commaJoin_filter hg2
  cases neg with
  | true =>
      show trimL ((((('(' :: (CurPfx.chars cur ++ commaJoin groups
          ++ fracPart frac) ++ [')'])).filter (fun x => x != ',')).filter
          (fun x => x != '"'))) = _
      simp only [List.filter_append, List.filter_cons,
        show (('(' : Char) != ',') = true by decide,
        show (('(' : Char) != '"') = true by decide,
        show ((')' : Char) != ',') = true by decide,
        show ((')' : Char) != '"') = true by decide, if_pos, List.filter_nil]
      rw [hcur_c, hcj, hfp_c, hcur_q]
      rw [show (groups.flatten.filter (fun x => x != '"')) = groups.flatten from
        filter_ne_eq_self (fun c hc =>
          digit_ne (flatten_digits hg2 c hc) (by decide))]
      rw [show ((fracPart frac).filter (fun x => x != '"')) = fracPart frac from
        filter_ne_eq_self (digitsDot_ne (fracPart_chars hf) (by decide) (by decide))]
      rw [trimL_eq_self ?hws]
      case hws =>
        intro c hc
        rcases List.mem_cons.mp hc with h | h
        · rw [h]; decide
        rcases List.mem_append.mp h with h2 | h2
        · rcases List.mem_append.mp h2 with h3 | h3
          · rcases List.mem_append.mp h3 with h4 | h4
            · exact hcur_ws c h4
            · exact hD_ws c (List.mem_append_left _ h4)
          · exact hD_ws c (List.mem_append_right _ h3)
        · simp only [List.mem_singleton] at h2
          rw [h2]; decide
      simp [List.append_assoc]
  | false =>
      show trimL ((((CurPfx.chars cur ++ commaJoin groups
          ++ fracPart frac).filter (fun x => x != ',')).filter
          (fun x => x != '"'))) = _
      simp only [List.filter_append]
      rw [hcur_c, hcj, hfp_c, hcur_q]
      rw [show (groups.flatten.filter (fun x => x != '"')) = groups.flatten from
        filter_ne_eq_self (fun c hc =>
          digit_ne (flatten_digits hg2 c hc) (by decide))]
      rw [show ((fracPart frac).filter (fun x => x != '"')) = fracPart frac from
        filter_ne_eq_self (digitsDot_ne (fracPart_chars hf) (by decide) (by decide))]
      rw [trimL_eq_self ?hws]
      case hws =>
        intro c hc
        rcases List.mem_append.mp hc with h | h
        · rcases List.mem_append.mp h with h2 | h2
          · exact hcur_ws c h2
          · exact hD_ws c (List.mem_append_left _ h2)
        · exact hD_ws c (List.mem_append_right _ h)
      simp [List.append_assoc]

theorem parenStep_true (X : List Char) :
    parenNeg ('(' :: X ++ [')']) = '-' :: X := by
  unfold parenNeg
  rw [if_pos]
  · simp
  · refine ⟨rfl, ?_⟩
    show (('(' :: X) ++ [')']).getLast? = some ')'
    exact List.getLast?_concat ('(' :: X)

theorem parenStep_false {h : Char} (Y : List Char) (hh : h ≠ '(') :
    parenNeg (h :: Y) = h :: Y := by
  unfold parenNeg
  rw [if_neg]
  rintro ⟨h1, h2⟩
  rw [List.head?_cons, Option.some.injEq] at h1
  exact hh h1

theorem stripCurrency_core (cur : CurPfx) (D : List Char)
    (hD : ∀ c ∈ D, c.isDigit = true ∨ c = '.')
    (hDhead : ∀ c, D.head? = some c → c.isDigit = true) :
    removeRs (removeRsDot ((CurPfx.chars cur ++ D).filter
        (fun x => x != '₹'))) = D := by
  have hD_rup : D.filter (fun x => x != '₹') = D :=
    filter_ne_eq_self (digitsDot_ne hD (by decide) (by decide))
  have hD_R : ∀ c ∈ D, c ≠ 'R' := digitsDot_ne hD (by decide) (by decide)
  cases cur with
  | nothing =>
      simp only [CurPfx.chars, List.nil_append]
      rw [hD_rup, removeRsDot_free hD_R, removeRs_free hD_R]
  | rupee =>
      simp only [CurPfx.chars, List.cons_append, List.nil_append,
        List.filter_cons]
      simp only [show (('₹' : Char) != '₹') = false by decide,
        Bool.false_eq_true, if_false]
      rw [hD_rup, removeRsDot_free hD_R, removeRs_free hD_R]
  | rsDot =>
      simp only [CurPfx.chars, List.cons_append, List.nil_append,
        List.filter_cons]
      simp only [show (('R' : Char) != '₹') = true by decide,
        show (('s' : Char) != '₹') = true by decide,
        show (('.' : Char) != '₹') = true by decide, if_pos]
      rw [hD_rup, removeRsDot_pat, removeRsDot_free hD_R,
        removeRs_free hD_R]
  | rs =>
      simp only [CurPfx.chars, List.cons_append, List.nil_append,
        List.filter_cons]
      simp only [show (('R' : Char) != '₹') = true by decide,
        show (('s' : Char) != '₹') = true by decide, if_pos]
      rw [hD_rup]
      cases D with
      | nil =>
          rw [show removeRsDot ['R', 's'] = ['R', 's'] from rfl,
            removeRs_pat]
          rfl
      | cons d D2 =>
          have hd : d.isDigit = true := hDhead d rfl
          rw [removeRsDot_rs_ne D2 (digit_ne hd (by decide)),
            removeRsDot_cons_ne D2 (digit_ne hd (by decide)),
            removeRsDot_free (fun x hx =>
              hD_R x (List.mem_cons_of_mem d hx)),
            removeRs_pat,
            removeRs_cons_ne D2 (digit_ne hd (by decide)),
            removeRs_free (fun x hx =>
              hD_R x (List.mem_cons_of_mem d hx))]

theorem stripCurrency (cur : CurPfx) (sign : List Char)
    (hsign : sign = [] ∨ sign = ['-']) (D : List Char)
    (hD : ∀ c ∈ D, c.isDigit = true ∨ c = '.')
    (hDhead : ∀ c, D.head? = some c → c.isDigit = true) :
    trimL (removeRs (removeRsDot ((sign ++ CurPfx.chars cur ++ D).filter
        (fun x => x != '₹')))) = sign ++ D := by
  have hD_ws : ∀ c ∈ D, isWs c = false := digitsDot_not_ws hD
  rcases hsign with rfl | rfl
  · simp only [List.nil_append]
    rw [stripCurrency_core cur D hD hDhead, trimL_eq_self hD_ws]
  · simp only [List.cons_append, List.nil_append, List.filter_cons]
    simp only [show (('-' : Char) != '₹') = true by decide, if_pos]
    rw [removeRsDot_cons_ne _ (by decide), removeRs_cons_ne _ (by decide)]
    rw [show removeRs (removeRsDot ((CurPfx.chars cur ++ D).filter
        (fun x => x != '₹'))) = D from stripCurrency_core cur D hD hDhead]
    rw [trimL_eq_self ?hws]
    case hws =>
      intro c hc
      rcases List.mem_cons.mp hc with h | h
      · rw [h]; decide
      · exact hD_ws c h

theorem cleanAmount_mkAmount (neg : Bool) (cur : CurPfx)
    (groups : List (List Char)) (frac : List Char)
    (hg1 : groups ≠ [])
    (hg2 : ∀ g ∈ groups, g ≠ [] ∧ ∀ c ∈ g, c.isDigit = true)
    (hf : ∀ c ∈ frac, c.isDigit = true) :
    cleanAmount (mkAmount neg cur groups frac)
      = (if neg then ['-'] else []) ++ (groups.flatten ++ fracPart frac) := by
  have hg2d : ∀ g ∈ groups, ∀ c ∈ g, c.isDigit = true := fun g hg => (hg2 g hg).2
  have hD : ∀ c ∈ groups.flatten ++ fracPart frac,
      c.isDigit = true ∨ c = '.' := by
    intro c hc
    rcases List.mem_append.mp hc with h | h
    · exact Or.inl (flatten_digits hg2d c h)
    · exact fracPart_chars hf c h
  obtain ⟨g0, gs, rfl⟩ : ∃ g0 gs, groups = g0 :: gs := by
    cases groups with
    | nil => exact absurd rfl hg1
    | cons a l => exact ⟨a, l, rfl⟩
  obtain ⟨c0, g0t, rfl⟩ : ∃ c0 g0t, g0 = c0 :: g0t := by
    rcases hg2 g0 (List.mem_cons_self _ _) with ⟨hne, _⟩
    cases g0 with
    | nil => exact absurd rfl hne
    | cons a l => exact ⟨a, l, rfl⟩
  have hc0 : c0.isDigit = true :=
    (hg2 _ (List.mem_cons_self _ _)).2 c0 (List.mem_cons_self _ _)
  have hDstruct : ((c0 :: g0t) :: gs).flatten ++ fracPart frac
      = c0 :: (g0t ++ gs.flatten ++ fracPart frac) := by
    simp [List.flatten_cons, List.append_assoc]
  have hDhead : ∀ c,
      (((c0 :: g0t) :: gs).flatten ++ fracPart frac).head? = some c →
      c.isDigit = true := by
    intro c hc
    rw [hDstruct] at hc
    rw [List.head?_cons, Option.some.injEq] at hc
    rw [← hc]
    exact hc0
  unfold cleanAmount
  rw [mkAmount_clean_stage1 neg cur _ frac hg2d hf]
  cases neg with
  | true =>
      have hshape : ((if true = true then ['('] else []) ++ CurPfx.chars cur
            ++ (((c0 :: g0t) :: gs).flatten ++ fracPart frac)
            ++ (if true = true then [')'] else []))
          = '(' :: (CurPfx.chars cur
            ++ (((c0 :: g0t) :: gs).flatten ++ fracPart frac)) ++ [')'] := by
        simp [List.append_assoc]
      rw [hshape, parenStep_true]
      have := stripCurrency cur ['-'] (Or.inr rfl) _ hD hDhead
      simp only [List.cons_append, List.nil_append] at this ⊢
      rw [this]
      simp
  | false =>
      have hshape : ((if false = true then ['('] else []) ++ CurPfx.chars cur
            ++ (((c0 :: g0t) :: gs).flatten ++ fracPart frac)
            ++ (if false = true then [')'] else []))
          = CurPfx.chars cur
            ++ (((c0 :: g0t) :: gs).flatten ++ fracPart frac) := by
        simp
      rw [hshape]
      have hstrip := stripCurrency cur [] (Or.inl rfl) _ hD hDhead
      simp only [List.nil_append] at hstrip
      cases cur with
      | nothing =>
          simp only [CurPfx.chars, List.nil_append] at hstrip ⊢
          rw [hDstruct, parenStep_false _ (digit_ne hc0 (by decide)),
            ← hDstruct, hstrip]
          simp
      | rupee =>
          simp only [CurPfx.chars, List.cons_append, List.nil_append]
            at hstrip ⊢
          rw [parenStep_false _ (by decide), hstrip]
          simp
      | rsDot =>
          simp only [CurPfx.chars, List.cons_append, List.nil_append]
            at hstrip ⊢
          rw [parenStep_false _ (by decide), hstrip]
          simp
      | rs =>
          simp only [CurPfx.chars, List.cons_append, List.nil_append]
            at hstrip ⊢
          rw [parenStep_false _ (by decide), hstrip]
          simp

/-- C5: for every amount string in canonical locale formatting — comma
thousands separators, optional parenthesized negative, optional currency
prefix (`₹`, `Rs.`, `Rs`) — `safe_float` returns the correct signed numeric
value; the empty string yields zero, and any input whose cleaned form fails
to parse as a float also yields exactly zero.  The embedding is a total
function, so no input raises an error. -/
theorem c5_parse_amount_correct (neg : Bool) (cur : CurPfx)
    (groups : List (List Char)) (frac : List Char)
    (hg1 : groups.isEmpty = false)
    (hg2 : groups.all (fun g => !g.isEmpty && g.all Char.isDigit) = true)
    (hf : frac.all Char.isDigit = true) :
    safe_float (mkAmount neg cur groups frac) = amountValue neg groups frac
    ∧ safe_float [] = 0
    ∧ (∀ s : List Char, parseFloatQ (cleanAmount s) = none → safe_float s = 0) := by
  have hg1p : groups ≠ [] := by
    cases groups with
    | nil => simp at hg1
    | cons a l => exact List.cons_ne_nil a l
  have hg2p : ∀ g ∈ groups, g ≠ [] ∧ ∀ c ∈ g, c.isDigit = true := by
    intro g hg
    have h2 := List.all_eq_true.mp hg2 g hg
    rw [Bool.and_eq_true] at h2
    constructor
    · intro e
      subst e
      simp at h2
    · exact List.all_eq_true.mp h2.2
  have hfp : ∀ c ∈ frac, c.isDigit = true := List.all_eq_true.mp hf
  have hflat_dig : ∀ c ∈ groups.flatten, c.isDigit = true :=
    flatten_digits (fun g hg => (hg2p g hg).2)
  have hD : ∀ c ∈ groups.flatten ++ fracPart frac,
      c.isDigit = true ∨ c = '.' := by
    intro c hc
    rcases List.mem_append.mp hc with h | h
    · exact Or.inl (hflat_dig c h)
    · exact fracPart_chars hfp c h
  have hDws : ∀ c ∈ groups.flatten ++ fracPart frac, isWs c = false :=
    digitsDot_not_ws hD
  have hflatne : groups.flatten ≠ [] := by
    cases groups with
    | nil => exact absurd rfl hg1p
    | cons g gs =>
        rcases hg2p g (List.mem_cons_self _ _) with ⟨hne, _⟩
        cases g with
        | nil => exact absurd rfl hne
        | cons c0 g0t => simp [List.flatten_cons]
  refine ⟨?_, rfl, ?_⟩
  · have hclean := cleanAmount_mkAmount neg cur groups frac hg1p hg2p hfp
    have hmkne : (mkAmount neg cur groups frac).isEmpty = false := by
      obtain ⟨g0, gs, rfl⟩ : ∃ g0 gs, groups = g0 :: gs := by
        cases groups with
        | nil => exact absurd rfl hg1p
        | cons a l => exact ⟨a, l, rfl⟩
      obtain ⟨c0, g0t, rfl⟩ : ∃ c0 g0t, g0 = c0 :: g0t := by
        rcases hg2p g0 (List.mem_cons_self _ _) with ⟨hne, _⟩
        cases g0 with
        | nil => exact absurd rfl hne
        | cons a l => exact ⟨a, l, rfl⟩
      cases neg <;> cases cur <;> cases gs <;>
        simp [mkAmount, commaJoin, CurPfx.chars]
    unfold safe_float
    rw [hmkne]
    simp only [Bool.false_eq_true, if_false]
    rw [hclean]
    cases neg with
    | true =>
        rw [show ((if (true : Bool) = true then ['-'] else [])
              ++ (groups.flatten ++ fracPart frac))
            = '-' :: (groups.flatten ++ fracPart frac) from rfl]
        rw [parseFloatQ_neg _ ?hws]
        case hws =>
          intro x hx
          rcases List.mem_cons.mp hx with h | h
          · rw [h]; decide
          · exact hDws x h
        rw [show (groups.flatten ++ fracPart frac)
            = groups.flatten ++ (if frac.isEmpty then [] else '.' :: frac)
            from rfl]
        rw [parseUnsignedQ_eval groups.flatten frac hflat_dig hflatne hfp]
        simp [amountValue]
    | false =>
        rw [show ((if (false : Bool) = true then ['-'] else [])
              ++ (groups.flatten ++ fracPart frac))
            = groups.flatten ++ fracPart frac from rfl]
        obtain ⟨c0, rest, hfl⟩ : ∃ c0 rest, groups.flatten = c0 :: rest := by
          cases hg : groups.flatten with
          | nil => exact absurd hg hflatne
          | cons a l => exact ⟨a, l, rfl⟩
        have hc0 : c0.isDigit = true := by
          apply hflat_dig
          rw [hfl]
          exact List.mem_cons_self _ _
        rw [hfl]
        rw [show ((c0 :: rest) ++ fracPart frac)
            = c0 :: (rest ++ fracPart frac) from rfl]
        rw [parseFloatQ_cons_other _ (digit_ne hc0 (by decide))
          (digit_ne hc0 (by decide)) ?hws2]
        case hws2 =>
          intro x hx
          apply hDws
          rw [hfl]
          exact hx
        rw [show (c0 :: (rest ++ (fracPart frac)))
            = (c0 :: rest) ++ (if frac.isEmpty then [] else '.' :: frac)
            from rfl]
        have hev := parseUnsignedQ_eval (c0 :: rest) frac
          (by rw [← hfl]; exact hflat_dig) (List.cons_ne_nil c0 rest) hfp
        rw [hev]
        simp [amountValue, hfl]
  · intro s hs
    unfold safe_float
    cases he : s.isEmpty with
    | true => simp
    | false =>
        simp only [Bool.false_eq_true, if_false]
        rw [hs]
        rfl

/-- Witness for C5 at the concrete canonical amount "(₹11,21,000.50)"
(Indian-style grouping, currency prefix, parenthesized negative), plus
concrete garbage inputs yielding zero. -/
theorem c5_parse_amount_correct_witness :
    (([cl "11", cl "21", cl "000"] : List (List Char)).isEmpty = false
      ∧ ([cl "11", cl "21", cl "000"] : List (List Char)).all
          (fun g => !g.isEmpty && g.all Char.isDigit) = true
      ∧ (cl "50").all Char.isDigit = true)
    ∧ (safe_float (mkAmount true CurPfx.rupee [cl "11", cl "21", cl "000"]
          (cl "50"))
        = amountValue true [cl "11", cl "21", cl "000"] (cl "50")
      ∧ safe_float [] = 0
      ∧ (∀ s : List Char, parseFloatQ (cleanAmount s) = none → safe_float s = 0))
    ∧ mkAmount true CurPfx.rupee [cl "11", cl "21", cl "000"] (cl "50")
        = cl "(₹11,21,000.50)"
    ∧ safe_float (cl "garbage") = 0
    ∧ safe_float (cl "12,34X") = 0 :=
  ⟨⟨by decide, by decide, by decide⟩,
   c5_parse_amount_correct true CurPfx.rupee [cl "11", cl "21", cl "000"]
     (cl "50") (by decide) (by decide) (by decide),
   by decide, by decide, by decide⟩

theorem takeWhile_pred_append (p : Char → Bool) (G rest : List Char)
    (hG : ∀ c ∈ G, p c = true)
    (hrest : ∀ c, rest.head? = some c → p c = false) :
    (G ++ rest).takeWhile p = G ∧ (G ++ rest).dropWhile p = rest := by
  induction G with
  | nil =>
      cases rest with
      | nil => exact ⟨rfl, rfl⟩
      | cons c r =>
          have hc := hrest c rfl
          constructor
          · simp [List.takeWhile_cons, hc]
          · simp [List.dropWhile_cons, hc]
  | cons d G2 ih =>
      have hd := hG d (List.mem_cons_self d G2)
      have ih2 := ih (fun c hc => hG c (List.mem_cons_of_mem d hc))
      constructor
      · simp only [List.cons_append, List.takeWhile_cons, hd, if_pos]
        rw [ih2.1]
      · simp only [List.cons_append, List.dropWhile_cons, hd, if_pos]
        exact ih2.2

theorem digitChar_isDigit : ∀ k, k < 10 → (Nat.digitChar k).isDigit = true := by
  decide

theorem digVal_digitChar : ∀ k, k < 10 → digVal (Nat.digitChar k) = k := by
  decide

theorem pad2_digits (n : ℕ) : ∀ c ∈ pad2 n, c.isDigit = true := by
  intro c hc
  rcases List.mem_cons.mp hc with h | h
  · rw [h]
    exact digitChar_isDigit _ (Nat.mod_lt _ (by norm_num))
  rcases List.mem_cons.mp h with h2 | h2
  · rw [h2]
    exact digitChar_isDigit _ (Nat.mod_lt _ (by norm_num))
  · simp at h2

theorem pad2_val (n : ℕ) (h : n ≤ 99) :
    10 * digVal (Nat.digitChar (n / 10 % 10)) + digVal (Nat.digitChar (n % 10))
      = n := by
  have h1 : n / 10 % 10 < 10 := Nat.mod_lt _ (by norm_num)
  have h2 : n % 10 < 10 := Nat.mod_lt _ (by norm_num)
  rw [digVal_digitChar _ h1, digVal_digitChar _ h2]
  have h3 : n / 10 < 10 := by omega
  rw [Nat.mod_eq_of_lt h3]
  omega

theorem takeDigits12_pad2 (n : ℕ) (h : n ≤ 99) (rest : List Char) :
    takeDigits12 (pad2 n ++ rest) = some (n, rest) := by
  have h1 : n / 10 % 10 < 10 := Nat.mod_lt _ (by norm_num)
  have h2 : n % 10 < 10 := Nat.mod_lt _ (by norm_num)
  simp only [pad2, List.cons_append, List.nil_append, takeDigits12,
    digitChar_isDigit _ h1, digitChar_isDigit _ h2, if_pos]
  rw [pad2_val n h]

theorem natVal_pad2 (n : ℕ) (h : n ≤ 99) : natVal (pad2 n) = n := by
  simp only [natVal, pad2, List.foldl_cons, List.foldl_nil]
  have := pad2_val n h
  omega

theorem takeDigitsExact_pad2 (n : ℕ) (h : n ≤ 99) :
    takeDigitsExact 2 (pad2 n) = some (n, []) := by
  unfold takeDigitsExact
  rw [if_pos]
  · rw [show (pad2 n).take 2 = pad2 n from rfl, natVal_pad2 n h,
      show (pad2 n).drop 2 = [] from rfl]
  · refine ⟨rfl, ?_⟩
    rw [show (pad2 n).take 2 = pad2 n from rfl]
    exact List.all_eq_true.mpr (pad2_digits n)

theorem monthAbbrevU_alpha : ∀ m, m < 13 → (monthAbbrevU m).all Char.isAlpha = true := by
  decide

theorem monthOfAbbrev_month : ∀ m, m < 13 → 1 ≤ m →
    monthOfAbbrev (monthAbbrevU m) = some m := by
  decide

theorem ws_not_alpha {c : Char} (h : isWs c = true) : c.isAlpha = false := by
  simp only [isWs, Char.isWhitespace, Bool.or_eq_true, decide_eq_true_eq] at h
  rcases h with ((h1 | h1) | h1) | h1 <;> (subst h1; decide)

theorem alpha_not_ws {c : Char} (h : c.isAlpha = true) : isWs c = false := by
  cases hw : isWs c with
  | false => rfl
  | true => rw [ws_not_alpha hw] at h; cases h

theorem daysInMonth_le31 (y m : ℕ) : daysInMonth y m ≤ 31 := by
  unfold daysInMonth
  split
  · split <;> norm_num
  · split <;> norm_num

theorem validDMY_holds (d m y : ℕ) (hd1 : 1 ≤ d) (hm1 : 1 ≤ m) (hm12 : m ≤ 12)
    (hval : d ≤ daysInMonth (if y ≤ 68 then 2000 + y else 1900 + y) m) :
    validDMY ⟨d, m, if y ≤ 68 then 2000 + y else 1900 + y⟩ = true := by
  simp only [validDMY, Bool.and_eq_true, decide_eq_true_eq]
  refine ⟨⟨⟨⟨?_, hm1⟩, hm12⟩, hd1⟩, hval⟩
  split <;> omega

theorem strptimeF_SBI (d m y : ℕ) (hd1 : 1 ≤ d) (hd31 : d ≤ 31)
    (hm1 : 1 ≤ m) (hm12 : m ≤ 12) (hy : y ≤ 99)
    (hval : d ≤ daysInMonth (if y ≤ 68 then 2000 + y else 1900 + y) m) :
    strptimeF fmtDMbY2 (pad2 d ++ '-' :: (monthAbbrevU m ++ '-' :: pad2 y))
      = some ⟨d, m, if y ≤ 68 then 2000 + y else 1900 + y⟩ := by
  have habbrev := takeWhile_pred_append Char.isAlpha (monthAbbrevU m)
    ('-' :: pad2 y)
    (List.all_eq_true.mp (monthAbbrevU_alpha m (by omega)))
    (fun c hc => by
      rw [List.head?_cons, Option.some.injEq] at hc
      subst hc
      decide)
  have hday : (1 ≤ d ∧ d ≤ 31) = True := eq_true ⟨hd1, hd31⟩
  unfold strptimeF fmtDMbY2
  simp only [runToks, takeDigits12_pad2 d (by omega) _, hday, if_true,
    habbrev.1, habbrev.2, monthOfAbbrev_month m (by omega) hm1,
    takeDigitsExact_pad2 y hy,
    show (('-' : Char) = '-') = True by simp, if_true]
  rw [validDMY_holds d m y hd1 hm1 hm12 hval]
  simp

theorem strptimeF_HDFC (d m y : ℕ) (hd1 : 1 ≤ d) (hd31 : d ≤ 31)
    (hm1 : 1 ≤ m) (hm12 : m ≤ 12) (hy : y ≤ 99)
    (hval : d ≤ daysInMonth (if y ≤ 68 then 2000 + y else 1900 + y) m) :
    strptimeF fmtDMY2slash (pad2 d ++ '/' :: (pad2 m ++ '/' :: pad2 y))
      = some ⟨d, m, if y ≤ 68 then 2000 + y else 1900 + y⟩ := by
  have hday : (1 ≤ d ∧ d ≤ 31) = True := eq_true ⟨hd1, hd31⟩
  have hmon : (1 ≤ m ∧ m ≤ 12) = True := eq_true ⟨hm1, hm12⟩
  unfold strptimeF fmtDMY2slash
  simp only [runToks, takeDigits12_pad2 d (by omega) _,
    takeDigits12_pad2 m (by omega) _, hday, hmon, if_true,
    takeDigitsExact_pad2 y hy,
    show (('/' : Char) = '/') = True by simp, if_true]
  rw [validDMY_holds d m y hd1 hm1 hm12 hval]
  simp

/-- C6 counterexample: the claim says an unparsable string is returned
"unchanged", but `parse_date` strips the string before trying formats and
returns the stripped variable, so a whitespace-padded unparsable input
comes back without its padding. -/
theorem c6_counterexample :
    tryFormats (bankFormats (some (cl "SBI"))) (trimL (cl "  BADDATE  ")) = none
    ∧ parse_date (cl "  BADDATE  ") (some (cl "SBI")) = cl "BADDATE"
    ∧ parse_date (cl "  BADDATE  ") (some (cl "SBI")) ≠ cl "  BADDATE  " := by
  refine ⟨by decide, by decide, by decide⟩

/-- C6 (amended): given a bank's known native format string (SBI's
`%d-%b-%y`, HDFC's `%d/%m/%y`) for a valid calendar date, `parse_date`
returns that date rendered as `%d-%m-%Y` with the two-digit year resolved
through the 1969/2068 pivot; given a string that no tried format parses, it
returns the original string stripped of surrounding whitespace (hence
unchanged whenever the input has no surrounding whitespace). -/
theorem c6_parse_date_formats (d m y : ℕ) (hd1 : 1 ≤ d) (hm1 : 1 ≤ m)
    (hm12 : m ≤ 12) (hy : y ≤ 99)
    (hval : d ≤ daysInMonth (if y ≤ 68 then 2000 + y else 1900 + y) m) :
    parse_date (pad2 d ++ '-' :: (monthAbbrevU m ++ '-' :: pad2 y))
        (some (cl "SBI"))
      = pad2 d ++ '-'
        :: (pad2 m ++ '-' :: pad4 (if y ≤ 68 then 2000 + y else 1900 + y))
    ∧ parse_date (pad2 d ++ '/' :: (pad2 m ++ '/' :: pad2 y))
        (some (cl "HDFC"))
      = pad2 d ++ '-'
        :: (pad2 m ++ '-' :: pad4 (if y ≤ 68 then 2000 + y else 1900 + y))
    ∧ (∀ s bank, tryFormats (bankFormats bank) (trimL s) = none →
        parse_date s bank = trimL s) := by
  have hd31 : d ≤ 31 := le_trans hval (daysInMonth_le31 _ _)
  have hws1 : ∀ c ∈ pad2 d ++ '-' :: (monthAbbrevU m ++ '-' :: pad2 y),
      isWs c = false := by
    intro c hc
    rcases List.mem_append.mp hc with h | h
    · exact digit_not_ws (pad2_digits d c h)
    rcases List.mem_cons.mp h with h | h
    · rw [h]; decide
    rcases List.mem_append.mp h with h | h
    · exact alpha_not_ws (List.all_eq_true.mp (monthAbbrevU_alpha m
        (by omega)) c h)
    rcases List.mem_cons.mp h with h | h
    · rw [h]; decide
    · exact digit_not_ws (pad2_digits y c h)
  have hws2 : ∀ c ∈ pad2 d ++ '/' :: (pad2 m ++ '/' :: pad2 y),
      isWs c = false := by
    intro c hc
    rcases List.mem_append.mp hc with h | h
    · exact digit_not_ws (pad2_digits d c h)
    rcases List.mem_cons.mp h with h | h
    · rw [h]; decide
    rcases List.mem_append.mp h with h | h
    · exact digit_not_ws (pad2_digits m c h)
    rcases List.mem_cons.mp h with h | h
    · rw [h]; decide
    · exact digit_not_ws (pad2_digits y c h)
  refine ⟨?_, ?_, ?_⟩
  · unfold parse_date
    rw [show (pad2 d ++ '-' :: (monthAbbrevU m ++ '-' :: pad2 y)).isEmpty
        = false from rfl]
    simp only [Bool.false_eq_true, if_false]
    rw [trimL_eq_self hws1,
      show bankFormats (some (cl "SBI")) = [fmtDMbY2] by decide]
    unfold tryFormats
    rw [strptimeF_SBI d m y hd1 hd31 hm1 hm12 hy hval]
    rfl
  · unfold parse_date
    rw [show (pad2 d ++ '/' :: (pad2 m ++ '/' :: pad2 y)).isEmpty
        = false from rfl]
    simp only [Bool.false_eq_true, if_false]
    rw [trimL_eq_self hws2,
      show bankFormats (some (cl "HDFC")) = [fmtDMY2slash] by decide]
    unfold tryFormats
    rw [strptimeF_HDFC d m y hd1 hd31 hm1 hm12 hy hval]
    rfl
  · intro s bank h
    unfold parse_date
    cases he : s.isEmpty with
    | true =>
        rw [List.isEmpty_iff.mp he]
        rfl
    | false =>
        simp only [Bool.false_eq_true, if_false]
        rw [h]

/-- Witness for C6 at 26-Apr-23 (SBI) and 01/04/23 (HDFC), both resolving
to the 2000s by the pivot, plus the concrete rendered strings. -/
theorem c6_parse_date_formats_witness :
    (1 ≤ 26 ∧ 1 ≤ 4 ∧ 4 ≤ 12 ∧ 23 ≤ 99
      ∧ 26 ≤ daysInMonth (if 23 ≤ 68 then 2000 + 23 else 1900 + 23) 4)
    ∧ (parse_date (pad2 26 ++ '-' :: (monthAbbrevU 4 ++ '-' :: pad2 23))
          (some (cl "SBI"))
        = pad2 26 ++ '-'
          :: (pad2 4 ++ '-' :: pad4 (if 23 ≤ 68 then 2000 + 23 else 1900 + 23))
      ∧ parse_date (pad2 26 ++ '/' :: (pad2 4 ++ '/' :: pad2 23))
          (some (cl "HDFC"))
        = pad2 26 ++ '-'
          :: (pad2 4 ++ '-' :: pad4 (if 23 ≤ 68 then 2000 + 23 else 1900 + 23))
      ∧ (∀ s bank, tryFormats (bankFormats bank) (trimL s) = none →
          parse_date s bank = trimL s))
    ∧ parse_date (cl "26-Apr-23") (some (cl "SBI")) = cl "26-04-2023"
    ∧ parse_date (cl "01/04/23") (some (cl "HDFC")) = cl "01-04-2023" :=
  ⟨⟨by decide, by decide, by decide, by decide, by decide⟩,
   c6_parse_date_formats 26 4 23 (by decide) (by decide) (by decide)
     (by decide) (by decide),
   by decide, by decide⟩

/-- **C8.** The claim says a row whose date is unparsable is dropped
silently while the rest of the file is still processed, so no single
malformed row discards the file.  Code bug: on an SBI file none of whose
rows is sweep-flagged, the `remove` column is never created,
`df_processed.get('remove', False)` is the scalar `False`, and the filter
`df_processed[False != True]` raises, so `parse_csv`'s blanket handler
returns `[]` — the valid rows are discarded along with the malformed one.
Concretely: in the two-row table `c8table` the first row's date parses
(to 26-04-2023), the row is not sweep-flagged and passes the date
re-validation, the second row's date is unparsable; the claim predicts one
record, yet `parse_csv_model` returns none at all. -/
theorem c8_sbi_no_sweep_drops_file :
    parse_date c8rowGood.date (some (cl "SBI")) = cl "26-04-2023"
    ∧ (toSRow (some (cl "SBI")) c8rowGood).is_sweep = false
    ∧ dateKeep (toSRow (some (cl "SBI")) c8rowGood) = true
    ∧ parse_date c8rowBad.date (some (cl "SBI")) = cl "garbage"
    ∧ dateKeep (toSRow (some (cl "SBI")) c8rowBad) = false
    ∧ tryEncodings c8read = some c8table
    ∧ parse_csv_model (cl "Alice") (cl "SBI") 0 c8read = [] := by
  refine ⟨by decide, by decide, by decide, by decide, by decide, rfl, ?_⟩
  decide
